import Mathlib

/-!
# Witeboard server: verification of the realtime-plane specification

A shallow embedding of the witeboard server core (sequencer, presence
manager, cursor batching, rate limiter, snapshot renderer, and the
HELLO / DRAW_EVENT / CURSOR_MOVE handlers) together with proofs that
settle the specification claims against it.

Conventions of the embedding:
* JavaScript `Map` objects are modelled by `JsMap`, an association list
  with JS insertion-order semantics (`set` updates in place, `delete`
  removes, iteration follows insertion order).
* JavaScript numbers used for coordinates, token counts and wall-clock
  times are modelled by `ℚ` (exact arithmetic); 32-bit bitwise
  operations (`<<`, `&`) are modelled on `ℤ` with explicit reduction
  modulo `2 ^ 32`.
* `Date.now()`, `Math.random()`-derived UUIDs and display names are
  passed in as explicit arguments.
* Fallible database calls are modelled with `Except`/`Bool` oracles:
  a draw request carries a flag saying whether the `INSERT` succeeds.
-/

set_option maxHeartbeats 1000000

namespace Witeboard

/-! ## JsMap: JavaScript `Map` semantics -/

/-- A JavaScript `Map`, as an insertion-ordered association list. -/
abbrev JsMap (K V : Type) : Type := List (K × V)

namespace JsMap

variable {K V : Type} [DecidableEq K]

/-- The empty map (`new Map()`). -/
def empty : JsMap K V := []

/-- `Map.prototype.get`. -/
def get : JsMap K V → K → Option V
| [], _ => none
| (k', v) :: rest, k => if k' = k then some v else get rest k

/-- `Map.prototype.has`. -/
def hasKey (m : JsMap K V) (k : K) : Bool := (get m k).isSome

/-- `Map.prototype.set`: update in place when the key exists (keeping its
position in iteration order), otherwise append at the end. -/
def set : JsMap K V → K → V → JsMap K V
| [], k, v => [(k, v)]
| (k', v') :: rest, k, v =>
    if k' = k then (k', v) :: rest else (k', v') :: set rest k v

/-- `Map.prototype.delete`. -/
def del : JsMap K V → K → JsMap K V
| [], _ => []
| (k', v') :: rest, k => if k' = k then rest else (k', v') :: del rest k

/-- `Map.prototype.size`. -/
def size (m : JsMap K V) : Nat := m.length

/-- `Array.from(map.values())`, in insertion order. -/
def values (m : JsMap K V) : List V := m.map Prod.snd

/-- `Array.from(map.keys())`, in insertion order. -/
def keys (m : JsMap K V) : List K := m.map Prod.fst

end JsMap

/-! ## Rate limiter (`rate-limiter.ts`)

Token buckets with wall-clock refill.  Times are rationals measured in
milliseconds, matching `Date.now()`; `refillBucket` divides the elapsed
milliseconds by 1000 exactly as the source does. -/

/-- A token bucket (`interface Bucket`). -/
structure Bucket where
  tokens : ℚ
  lastRefill : ℚ
deriving Repr, DecidableEq

/-- `DRAW_BUCKET_SIZE = 30`. -/
def DRAW_BUCKET_SIZE : ℚ := 30
/-- `DRAW_REFILL_RATE = 60`. -/
def DRAW_REFILL_RATE : ℚ := 60
/-- `CURSOR_BUCKET_SIZE = 60`. -/
def CURSOR_BUCKET_SIZE : ℚ := 60
/-- `CURSOR_REFILL_RATE = 120`. -/
def CURSOR_REFILL_RATE : ℚ := 120

/-- `getBucket`: a missing bucket is created full, stamped with the
current time. -/
def getBucket (b : Option Bucket) (now : ℚ) (maxTokens : ℚ) : Bucket :=
  match b with
  | some bucket => bucket
  | none => { tokens := maxTokens, lastRefill := now }

/-- `refillBucket`: add `elapsedSeconds * refillRate` tokens, capped at
`maxTokens`, and stamp `lastRefill` with the current time. -/
def refillBucket (bucket : Bucket) (now : ℚ) (refillRate maxTokens : ℚ) : Bucket :=
  let elapsed := (now - bucket.lastRefill) / 1000
  let tokensToAdd := elapsed * refillRate
  { tokens := min maxTokens (bucket.tokens + tokensToAdd), lastRefill := now }

/-- `tryConsume`: refill, then consume one token when at least one is
available.  Returns the updated bucket and whether the message is
admitted. -/
def tryConsume (bucket : Bucket) (now : ℚ) (refillRate maxTokens : ℚ) :
    Bucket × Bool :=
  let bucket := refillBucket bucket now refillRate maxTokens
  if 1 ≤ bucket.tokens then
    ({ bucket with tokens := bucket.tokens - 1 }, true)
  else
    (bucket, false)

/-- Run a bucket over a list of call times, returning the final bucket and
the per-call admission decisions. -/
def runBucket (bucket : Bucket) (refillRate maxTokens : ℚ) :
    List ℚ → Bucket × List Bool
| [] => (bucket, [])
| t :: ts =>
    let (bucket', ok) := tryConsume bucket t refillRate maxTokens
    let (bfinal, oks) := runBucket bucket' refillRate maxTokens ts
    (bfinal, ok :: oks)

/-- Number of admitted calls in a run. -/
def admittedCount (bucket : Bucket) (refillRate maxTokens : ℚ) (ts : List ℚ) : ℕ :=
  ((runBucket bucket refillRate maxTokens ts).2.filter id).length

/-! ## Shared data model (`packages/shared/src/types.ts`) -/

/-- `ShapeType`. -/
inductive ShapeType
| rectangle
| ellipse
| line
deriving Repr, DecidableEq

/-- `StrokePayload`.  Coordinates and widths are rationals (JS numbers). -/
structure StrokePayload where
  strokeId : String
  color : String
  width : ℚ
  opacity : Option ℚ
  points : List (ℚ × ℚ)
deriving Repr, DecidableEq

/-- `ShapePayload`; the source field `end` is spelled `endp` (`end` is a
Lean keyword). -/
structure ShapePayload where
  strokeId : String
  shapeType : ShapeType
  start : ℚ × ℚ
  endp : ℚ × ℚ
  color : String
  width : ℚ
  opacity : Option ℚ
deriving Repr, DecidableEq

/-- `TextPayload`. -/
structure TextPayload where
  strokeId : String
  text : String
  position : ℚ × ℚ
  color : String
  fontSize : ℚ
deriving Repr, DecidableEq

/-- `DeletePayload`. -/
structure DeletePayload where
  strokeIds : List String
deriving Repr, DecidableEq

/-- `DrawEventPayload`, the tagged union of the payload shapes
(`ClearPayload` is the empty object). -/
inductive DrawEventPayload
| stroke (p : StrokePayload)
| shape (p : ShapePayload)
| text (p : TextPayload)
| delete (p : DeletePayload)
| clear
deriving Repr, DecidableEq

/-- `isStrokePayload`: has `strokeId` and `points`. -/
def isStrokePayload : DrawEventPayload → Bool
| .stroke _ => true
| _ => false

/-- `isShapePayload`: has `strokeId` and `shapeType`. -/
def isShapePayload : DrawEventPayload → Bool
| .shape _ => true
| _ => false

/-- `isTextPayload`: has `strokeId` and `text`. -/
def isTextPayload : DrawEventPayload → Bool
| .text _ => true
| _ => false

/-- `isDeletePayload`: has `strokeIds`. -/
def isDeletePayload : DrawEventPayload → Bool
| .delete _ => true
| _ => false

/-- `DrawEventType`. -/
inductive DrawEventType
| stroke
| clear
| delete
| shape
| text
deriving Repr, DecidableEq

/-- `DrawEvent`: immutable, append-only, server-ordered. -/
structure DrawEvent where
  boardId : String
  seq : ℕ
  type : DrawEventType
  userId : String
  timestamp : ℕ
  payload : DrawEventPayload
deriving Repr, DecidableEq

/-- `Board` metadata. -/
structure Board where
  id : String
  createdAt : ℕ
  name : Option String
  ownerId : Option String
  isPrivate : Bool
deriving Repr, DecidableEq

/-- `UserIdentity`. -/
structure UserIdentity where
  userId : String
  displayName : String
  isAnonymous : Bool
  avatarColor : Option String
deriving Repr, DecidableEq

/-- `PresenceState` (`cursor` is `{x, y, t}`). -/
structure PresenceState where
  boardId : String
  userId : String
  displayName : String
  isAnonymous : Bool
  avatarColor : Option String
  cursor : Option (ℚ × ℚ × ℕ)
  connectedAt : ℕ
deriving Repr, DecidableEq

/-- `CursorData` entries of a `CURSOR_BATCH`. -/
structure CursorData where
  userId : String
  displayName : String
  avatarColor : Option String
  x : ℚ
  y : ℚ
deriving Repr, DecidableEq

/-- The snapshot object attached to a `SYNC_SNAPSHOT` reply. -/
structure SyncSnapshotData where
  imageData : String
  seq : ℕ
  offsetX : ℚ
  offsetY : ℚ
deriving Repr, DecidableEq

/-- Server → client messages (`ServerMessage`). -/
inductive ServerMessage
| welcome (userId displayName avatarColor : String)
| syncSnapshot (boardId : String) (events : List DrawEvent) (lastSeq : ℕ)
    (isDelta : Bool) (snapshot : Option SyncSnapshotData)
| drawEvent (event : DrawEvent)
| cursorBatch (boardId : String) (cursors : List CursorData)
| userList (boardId : String) (users : List PresenceState)
| userJoin (boardId : String) (user : PresenceState)
| userLeave (boardId userId : String)
| boardCreated (boardId : String) (name : Option String) (isPrivate : Bool)
| accessDenied (boardId reason : String)
| errorMsg (code message : String)
| pong
deriving Repr, DecidableEq

/-! ## JavaScript value helpers -/

/-- Truthiness of a `string | null | undefined` value: `null`, `undefined`
and the empty string are falsy. -/
def jsTruthy : Option String → Bool
| none => false
| some s => s ≠ ""

/-- `a || b` where both sides are nullable strings. -/
def jsOrOpt (a b : Option String) : Option String :=
  if jsTruthy a then a else b

/-- `a || b` where the fallback is a plain string. -/
def jsOrStr (a : Option String) (b : String) : String :=
  match a with
  | some s => if s = "" then b else s
  | none => b

/-! ## Avatar colors (`packages/shared/src/utils.ts`) -/

/-- The fixed avatar/cursor palette (`COLORS`). -/
def COLORS : List String :=
  ["#FF6B6B", "#4ECDC4", "#45B7D1", "#96CEB4", "#FFEAA7", "#DDA0DD",
   "#98D8C8", "#F7DC6F", "#BB8FCE", "#85C1E9", "#F8B500", "#00CED1",
   "#FF7F50", "#9370DB", "#20B2AA", "#FF69B4", "#00FA9A", "#FFD700"]

/-- JavaScript `ToInt32`: reduce to the signed 32-bit range, as performed
by `<<` and `&`. -/
def toInt32 (x : ℤ) : ℤ := (x + 2 ^ 31) % 2 ^ 32 - 2 ^ 31

/-- One iteration of the `generateAvatarColor` hash loop:
`hash = ((hash << 5) - hash) + charCode; hash = hash & hash`. -/
def hashStep (hash : ℤ) (c : ℕ) : ℤ :=
  toInt32 (toInt32 (hash * 2 ^ 5) - hash + c)

/-- The hash accumulated over the UTF-16 units of `userId` (code points
for the BMP strings used as user ids). -/
def stringHash (s : String) : ℤ :=
  s.data.foldl (fun h ch => hashStep h ch.toNat) 0

/-- `generateAvatarColor`: `COLORS[Math.abs(hash) % COLORS.length]`. -/
def generateAvatarColor (userId : String) : String :=
  COLORS.getD ((stringHash userId).natAbs % COLORS.length) ""

/-! ## Event store (`db/client.ts`)

The PostgreSQL tables are modelled as in-memory data: the
`drawing_events` rows are an (unordered) list, `ORDER BY seq ASC`
becomes an insertion sort, and `MAX(seq)` with `NULL → 0` becomes a
fold. -/

/-- A `board_snapshots` row. -/
structure Snapshot where
  boardId : String
  seq : ℕ
  imageData : String
  offsetX : ℚ
  offsetY : ℚ
  createdAt : ℕ
deriving Repr, DecidableEq

/-- The database state: board catalog, event log rows, snapshot rows. -/
structure Db where
  boards : JsMap String Board
  events : List DrawEvent
  snapshots : JsMap String Snapshot
deriving Repr, DecidableEq

/-- `ORDER BY seq ASC`. -/
def sortBySeq (l : List DrawEvent) : List DrawEvent :=
  l.insertionSort (fun a b => a.seq ≤ b.seq)

/-- `getBoard`. -/
def getBoard (db : Db) (boardId : String) : Option Board :=
  JsMap.get db.boards boardId

/-- `ensureBoardExists`: `INSERT ... ON CONFLICT (id) DO NOTHING` with
`is_private = false` and no owner. -/
def ensureBoardExists (db : Db) (boardId : String) (name : Option String)
    (now : ℕ) : Db :=
  if (JsMap.get db.boards boardId).isSome then db
  else
    let b : Board :=
      { id := boardId, createdAt := now,
        name := if jsTruthy name then name else none,
        ownerId := none, isPrivate := false }
    { db with boards := JsMap.set db.boards boardId b }

/-- `getMaxSeq`: `SELECT MAX(seq) ... `, `NULL` mapped to 0. -/
def getMaxSeq (db : Db) (boardId : String) : ℕ :=
  (db.events.filter (fun e => e.boardId == boardId)).foldl
    (fun m e => max m e.seq) 0

/-- `appendEvent`: a plain `INSERT`, which fails on a
`(board_id, seq)` primary-key collision. -/
def appendEvent (db : Db) (event : DrawEvent) : Except Unit Db :=
  if db.events.any (fun e => e.boardId == event.boardId && e.seq == event.seq)
  then .error ()
  else .ok { db with events := db.events ++ [event] }

/-- `getEvents`: all events of a board, ordered by `seq` ascending. -/
def getEvents (db : Db) (boardId : String) : List DrawEvent :=
  sortBySeq (db.events.filter (fun e => e.boardId == boardId))

/-- `getEventsFromSeq`: events with `seq > fromSeq`, ordered ascending. -/
def getEventsFromSeq (db : Db) (boardId : String) (fromSeq : ℕ) :
    List DrawEvent :=
  sortBySeq (db.events.filter
    (fun e => e.boardId == boardId && decide (fromSeq < e.seq)))

/-- `getEventsAfterSnapshot`: events with `seq > snapshotSeq`, ordered
ascending. -/
def getEventsAfterSnapshot (db : Db) (boardId : String) (snapshotSeq : ℕ) :
    List DrawEvent :=
  sortBySeq (db.events.filter
    (fun e => e.boardId == boardId && decide (snapshotSeq < e.seq)))

/-- `getSnapshot`. -/
def getSnapshot (db : Db) (boardId : String) : Option Snapshot :=
  JsMap.get db.snapshots boardId

/-! ## Sequencer (`sequencer.ts`) -/

/-- The in-memory `nextSeq` counters, one per board. -/
abbrev SeqSt := JsMap String ℕ

/-- `initBoardSequence`: on first use, seed the counter with
`maxSeq(boardId) + 1`. -/
def initBoardSequence (db : Db) (st : SeqSt) (boardId : String) : SeqSt :=
  if JsMap.hasKey st boardId then st
  else JsMap.set st boardId (getMaxSeq db boardId + 1)

/-- `sequenceEvent`: initialize if needed, reserve the next `seq`
(committing `seq + 1` to the counter immediately), build the event, then
persist.  The `dbOk` flag injects a transient persistence failure
(`appendEvent` throwing); on any failure the function rethrows without
touching the counter again. -/
def sequenceEvent (db : Db) (st : SeqSt) (boardId userId : String)
    (type : DrawEventType) (payload : DrawEventPayload) (timestamp : ℕ)
    (dbOk : Bool) : SeqSt × Except Unit (Db × DrawEvent) :=
  let st1 := initBoardSequence db st boardId
  let seq := (JsMap.get st1 boardId).getD 0
  let st2 := JsMap.set st1 boardId (seq + 1)
  let event : DrawEvent :=
    { boardId := boardId, seq := seq, type := type, userId := userId,
      timestamp := timestamp, payload := payload }
  if dbOk then
    match appendEvent db event with
    | .ok db' => (st2, .ok (db', event))
    | .error _ => (st2, .error ())
  else (st2, .error ())

/-- One request made to the sequencer, with its failure oracle. -/
structure SeqReq where
  boardId : String
  userId : String
  type : DrawEventType
  payload : DrawEventPayload
  timestamp : ℕ
  dbOk : Bool
deriving Repr, DecidableEq

/-- Run the sequencer over a list of requests, collecting the per-call
results. -/
def runSeq (db : Db) (st : SeqSt) :
    List SeqReq → Db × SeqSt × List (Except Unit DrawEvent)
| [] => (db, st, [])
| r :: rs =>
    match sequenceEvent db st r.boardId r.userId r.type r.payload
        r.timestamp r.dbOk with
    | (st', .ok (db', ev)) =>
        let (dbf, stf, out) := runSeq db' st' rs
        (dbf, stf, .ok ev :: out)
    | (st', .error _) =>
        let (dbf, stf, out) := runSeq db st' rs
        (dbf, stf, .error () :: out)

/-! ## Presence manager (`presence.ts`)

Connections (`WebSocket` objects) are identified by naturals.  A JS
`Set` of connections is an insertion-ordered duplicate-free list. -/

/-- A connection identifier (one `WebSocket`). -/
abbrev ConnId := ℕ

/-- `Set.prototype.add`: append when absent. -/
def jsSetAdd (l : List ConnId) (x : ConnId) : List ConnId :=
  if x ∈ l then l else l ++ [x]

/-- `Set.prototype.delete`. -/
def jsSetDelete (l : List ConnId) (x : ConnId) : List ConnId :=
  l.erase x

/-- The four connection-state maps of the presence manager. -/
structure PresenceSt where
  connectionToUser : JsMap ConnId UserIdentity
  connectionToBoard : JsMap ConnId String
  clientsByBoard : JsMap String (List ConnId)
  presenceByBoard : JsMap String (JsMap String PresenceState)
deriving Repr, DecidableEq

/-- The empty presence state (module load). -/
def PresenceSt.initial : PresenceSt :=
  { connectionToUser := [], connectionToBoard := [],
    clientsByBoard := [], presenceByBoard := [] }

/-- `resolveIdentity`: `userId = clientId || uuid`,
`displayName = displayName || anonymousName`, with the avatar color
derived from the resolved `userId`.  The random UUID and random
anonymous name are passed in. -/
def resolveIdentity (clientId displayName : Option String)
    (isAnonymous : Bool) (freshUuid freshName : String) : UserIdentity :=
  let userId := jsOrStr clientId freshUuid
  { userId := userId,
    displayName := jsOrStr displayName freshName,
    isAnonymous := isAnonymous,
    avatarColor := some (generateAvatarColor userId) }

/-- `joinBoard`: record the connection maps, add the connection to the
board room, and store (replacing) the presence entry keyed by
`userId`. -/
def joinBoard (ps : PresenceSt) (ws : ConnId) (boardId : String)
    (identity : UserIdentity) (now : ℕ) : PresenceSt × PresenceState :=
  let presence : PresenceState :=
    { boardId := boardId, userId := identity.userId,
      displayName := identity.displayName,
      isAnonymous := identity.isAnonymous,
      avatarColor := identity.avatarColor,
      cursor := none, connectedAt := now }
  let clients := (JsMap.get ps.clientsByBoard boardId).getD []
  let pmap := (JsMap.get ps.presenceByBoard boardId).getD JsMap.empty
  ({ connectionToUser := JsMap.set ps.connectionToUser ws identity,
     connectionToBoard := JsMap.set ps.connectionToBoard ws boardId,
     clientsByBoard :=
       JsMap.set ps.clientsByBoard boardId (jsSetAdd clients ws),
     presenceByBoard :=
       JsMap.set ps.presenceByBoard boardId
         (JsMap.set pmap identity.userId presence) },
   presence)

/-- `leaveBoard`: remove the connection from its room (dropping the room
when it empties), delete the presence entry of the connection's
`userId` (dropping the board map when it empties), and clear the
connection maps. -/
def leaveBoard (ps : PresenceSt) (ws : ConnId) :
    PresenceSt × Option (String × String) :=
  match JsMap.get ps.connectionToUser ws, JsMap.get ps.connectionToBoard ws with
  | some identity, some boardId =>
      let clientsByBoard :=
        match JsMap.get ps.clientsByBoard boardId with
        | some clients =>
            let clients' := jsSetDelete clients ws
            if clients'.length = 0 then JsMap.del ps.clientsByBoard boardId
            else JsMap.set ps.clientsByBoard boardId clients'
        | none => ps.clientsByBoard
      let presenceByBoard :=
        match JsMap.get ps.presenceByBoard boardId with
        | some pmap =>
            let pmap' := JsMap.del pmap identity.userId
            if JsMap.size pmap' = 0 then JsMap.del ps.presenceByBoard boardId
            else JsMap.set ps.presenceByBoard boardId pmap'
        | none => ps.presenceByBoard
      ({ connectionToUser := JsMap.del ps.connectionToUser ws,
         connectionToBoard := JsMap.del ps.connectionToBoard ws,
         clientsByBoard := clientsByBoard,
         presenceByBoard := presenceByBoard },
       some (boardId, identity.userId))
  | _, _ => (ps, none)

/-- What `updateCursor` returns to the caller when the connection is
joined. -/
structure CursorUpd where
  boardId : String
  userId : String
  displayName : String
  avatarColor : Option String
deriving Repr, DecidableEq

/-- `updateCursor`: store `{x, y, t}` on the presence entry (when one
exists) and return the connection's routing data. -/
def updateCursor (ps : PresenceSt) (ws : ConnId) (x y : ℚ) (now : ℕ) :
    PresenceSt × Option CursorUpd :=
  match JsMap.get ps.connectionToUser ws, JsMap.get ps.connectionToBoard ws with
  | some identity, some boardId =>
      let presenceByBoard :=
        match JsMap.get ps.presenceByBoard boardId with
        | some pmap =>
            match JsMap.get pmap identity.userId with
            | some presence =>
                JsMap.set ps.presenceByBoard boardId
                  (JsMap.set pmap identity.userId
                    { presence with cursor := some (x, y, now) })
            | none => ps.presenceByBoard
        | none => ps.presenceByBoard
      ({ ps with presenceByBoard := presenceByBoard },
       some { boardId := boardId, userId := identity.userId,
              displayName := identity.displayName,
              avatarColor := identity.avatarColor })
  | _, _ => (ps, none)

/-- `getBoardClients`. -/
def getBoardClients (ps : PresenceSt) (boardId : String) : List ConnId :=
  (JsMap.get ps.clientsByBoard boardId).getD []

/-- `getBoardPresence`: `Array.from(presence.values())`. -/
def getBoardPresence (ps : PresenceSt) (boardId : String) : List PresenceState :=
  match JsMap.get ps.presenceByBoard boardId with
  | some pmap => JsMap.values pmap
  | none => []

/-- `getConnectionIdentity`. -/
def getConnectionIdentity (ps : PresenceSt) (ws : ConnId) : Option UserIdentity :=
  JsMap.get ps.connectionToUser ws

/-- `getConnectionBoard`. -/
def getConnectionBoard (ps : PresenceSt) (ws : ConnId) : Option String :=
  JsMap.get ps.connectionToBoard ws

/-! ## Cursor batching (`presence.ts`) -/

/-- `cursorBatches : Map<boardId, Map<userId, CursorData>>`. -/
abbrev CursorBatches := JsMap String (JsMap String CursorData)

/-- `queueCursorUpdate`: coalesce into the per-board per-user slot. -/
def queueCursorUpdate (cb : CursorBatches) (boardId userId displayName : String)
    (avatarColor : Option String) (x y : ℚ) : CursorBatches :=
  let inner := (JsMap.get cb boardId).getD JsMap.empty
  JsMap.set cb boardId
    (JsMap.set inner userId
      { userId := userId, displayName := displayName,
        avatarColor := avatarColor, x := x, y := y })

/-- One queued call to `queueCursorUpdate` (for stating batching
properties over a tick). -/
structure QueuedCursor where
  boardId : String
  userId : String
  displayName : String
  avatarColor : Option String
  x : ℚ
  y : ℚ
deriving Repr, DecidableEq

/-- Apply a tick's worth of `queueCursorUpdate` calls in order. -/
def queueAll (cb : CursorBatches) : List QueuedCursor → CursorBatches
| [] => cb
| q :: qs =>
    queueAll
      (queueCursorUpdate cb q.boardId q.userId q.displayName q.avatarColor
        q.x q.y) qs

/-- `flushCursorBatches`: for each board with pending entries (in map
order) emit one batch of `Array.from(cursors.values())` and clear that
board's buffer in place. -/
def flushCursorBatches : CursorBatches →
    List (String × List CursorData) × CursorBatches
| [] => ([], [])
| (boardId, cursors) :: rest =>
    let (out, rest') := flushCursorBatches rest
    if 0 < JsMap.size cursors then
      ((boardId, JsMap.values cursors) :: out,
        (boardId, JsMap.empty) :: rest')
    else (out, (boardId, cursors) :: rest')

/-! ## Handlers (`handlers.ts`)

The handlers are modelled as pure state transformers.  Token
verification (`verifyClerkToken`) is an external await, so the verified
subject arrives as an input (`none` for a missing/unverifiable token —
note the source tests it with JS truthiness).  Messages produced for the
calling socket and for the rest of the room are collected in lists. -/

/-- The result of `handleHello`. -/
structure HelloOutcome where
  toCaller : List ServerMessage
  toOthers : List ServerMessage
  db : Db
  presence : PresenceSt
  seqSt : SeqSt
deriving Repr, DecidableEq

/-- The private-board access check of `handleHello` (lines 534–559):
`ACCESS_DENIED` reason, or `none` when the caller may join. -/
def helloDenied : Option Board → Option String → Option String
| some bd, clerkUserId =>
    if bd.isPrivate then
      if ¬ jsTruthy clerkUserId then
        some "This is a private board. Please sign in to access it."
      else if bd.ownerId ≠ clerkUserId then
        some "This board is private. Only the owner can access it."
      else none
    else none
| none, _ => none

/-- The full-sync arm of `handleHello`: use the snapshot plus its tail
when one exists, otherwise all events. -/
def helloFullSync (db : Db) (boardId : String) :
    List DrawEvent × Option SyncSnapshotData :=
  match getSnapshot db boardId with
  | some snap =>
      (getEventsAfterSnapshot db boardId snap.seq,
        some { imageData := snap.imageData, seq := snap.seq,
               offsetX := snap.offsetX, offsetY := snap.offsetY })
  | none => (getEvents db boardId, none)

/-- The sync payload of `handleHello` (lines 584–614): delta when
`resumeFromSeq > 0`, otherwise a full sync. -/
def helloSyncPayload (db : Db) (boardId : String)
    (resumeFromSeq : Option ℕ) : List DrawEvent × Option SyncSnapshotData :=
  match resumeFromSeq with
  | some r =>
      if 0 < r then (getEventsFromSeq db boardId r, none)
      else helloFullSync db boardId
  | none => helloFullSync db boardId

/-- `isDelta = resumeFromSeq !== undefined && resumeFromSeq > 0`. -/
def helloIsDelta : Option ℕ → Bool
| some r => decide (0 < r)
| none => false

/-- The join-and-sync arm of `handleHello` (after the access check
passed). -/
def helloProceed (db : Db) (ps : PresenceSt) (st : SeqSt) (ws : ConnId)
    (boardId : String) (clerkUserId : Option String)
    (clientId displayName : Option String) (isAnonymous : Bool)
    (resumeFromSeq : Option ℕ) (freshUuid freshName : String) (now : ℕ) :
    HelloOutcome :=
  let st := initBoardSequence db st boardId
  let identity := resolveIdentity (jsOrOpt clerkUserId clientId)
    displayName (!(jsTruthy clerkUserId) && isAnonymous)
    freshUuid freshName
  let (ps, presence) := joinBoard ps ws boardId identity now
  let welcome : ServerMessage :=
    .welcome identity.userId identity.displayName
      (identity.avatarColor.getD "")
  let sync := helloSyncPayload db boardId resumeFromSeq
  let syncMsg : ServerMessage :=
    .syncSnapshot boardId sync.1 (getMaxSeq db boardId)
      (helloIsDelta resumeFromSeq) sync.2
  let users := getBoardPresence ps boardId
  { toCaller := [welcome, syncMsg, .userList boardId users],
    toOthers := [.userJoin boardId presence],
    db := db, presence := ps, seqSt := st }

/-- `handleHello`, lines 515–642: verify, load (or lazily create) the
board, enforce private-board access, initialize the sequencer, resolve
the identity, join the room, then send `WELCOME`, `SYNC_SNAPSHOT`
(delta / snapshot / full), `USER_LIST`, and broadcast `USER_JOIN` to the
others. -/
def handleHello (db : Db) (ps : PresenceSt) (st : SeqSt) (ws : ConnId)
    (boardId : String) (verifiedSub : Option String)
    (clientId displayName : Option String) (isAnonymous : Bool)
    (resumeFromSeq : Option ℕ) (freshUuid freshName : String) (now : ℕ) :
    HelloOutcome :=
  let clerkUserId := verifiedSub
  let db :=
    if (getBoard db boardId).isSome then db
    else ensureBoardExists db boardId none now
  match helloDenied (getBoard db boardId) clerkUserId with
  | some reason =>
      { toCaller := [.accessDenied boardId reason], toOthers := [],
        db := db, presence := ps, seqSt := st }
  | none =>
      helloProceed db ps st ws boardId clerkUserId clientId displayName
        isAnonymous resumeFromSeq freshUuid freshName now

/-- The result of `handleDrawEvent`. -/
structure DrawOutcome where
  toCaller : List ServerMessage
  toAll : List ServerMessage
  db : Db
  seqSt : SeqSt
  drawBucket : Bucket
deriving Repr, DecidableEq

/-- `handleDrawEvent`, lines 647–690: rate-limit (silent drop), check
joined (`NOT_JOINED`), sequence and persist, broadcast to the whole
room, or reply `DRAW_FAILED` when persistence throws.  The async
compaction trigger does not produce messages and is omitted. -/
def handleDrawEvent (db : Db) (ps : PresenceSt) (st : SeqSt)
    (drawBucket : Option Bucket) (now : ℚ) (ws : ConnId)
    (msgType : DrawEventType) (msgPayload : DrawEventPayload)
    (timestamp : ℕ) (dbOk : Bool) : DrawOutcome :=
  let b0 := getBucket drawBucket now DRAW_BUCKET_SIZE
  let (b1, allowed) := tryConsume b0 now DRAW_REFILL_RATE DRAW_BUCKET_SIZE
  if ¬ allowed then
    { toCaller := [], toAll := [], db := db, seqSt := st, drawBucket := b1 }
  else
    match getConnectionBoard ps ws, getConnectionIdentity ps ws with
    | some boardId, some identity =>
        (match sequenceEvent db st boardId identity.userId msgType
            msgPayload timestamp dbOk with
        | (st', .ok (db', event)) =>
            { toCaller := [], toAll := [.drawEvent event],
              db := db', seqSt := st', drawBucket := b1 }
        | (st', .error _) =>
            { toCaller :=
                [.errorMsg "DRAW_FAILED" "Failed to process draw event"],
              toAll := [], db := db, seqSt := st', drawBucket := b1 })
    | _, _ =>
        { toCaller := [.errorMsg "NOT_JOINED" "Must send HELLO first"],
          toAll := [], db := db, seqSt := st, drawBucket := b1 }

/-- The result of `handleCursorMove`. -/
structure CursorOutcome where
  toCaller : List ServerMessage
  presence : PresenceSt
  batches : CursorBatches
  cursorBucket : Bucket
deriving Repr, DecidableEq

/-- `handleCursorMove`, lines 695–716: rate-limit (silent drop), update
the presence cursor, and queue the position for the batched broadcast.
A connection that has not joined is ignored without any reply. -/
def handleCursorMove (ps : PresenceSt) (cb : CursorBatches)
    (cursorBucket : Option Bucket) (now : ℚ) (ws : ConnId) (x y : ℚ)
    (nowMs : ℕ) : CursorOutcome :=
  let b0 := getBucket cursorBucket now CURSOR_BUCKET_SIZE
  let (b1, allowed) := tryConsume b0 now CURSOR_REFILL_RATE CURSOR_BUCKET_SIZE
  if ¬ allowed then
    { toCaller := [], presence := ps, batches := cb, cursorBucket := b1 }
  else
    match updateCursor ps ws x y nowMs with
    | (ps', some r) =>
        { toCaller := [], presence := ps',
          batches := queueCursorUpdate cb r.boardId r.userId r.displayName
            r.avatarColor x y,
          cursorBucket := b1 }
    | (ps', none) =>
        { toCaller := [], presence := ps', batches := cb,
          cursorBucket := b1 }

/-! ## Snapshot renderer (`snapshot.ts`)

The raster pixels produced by node-canvas are outside the model; the
renderer is embedded down to the observable geometry: which events are
replayed onto the canvas, the canvas dimensions, and the world-space
origin returned with the image. -/

/-- `MAX_CANVAS_SIZE = 16384`. -/
def MAX_CANVAS_SIZE : ℤ := 16384

/-- `PADDING = 100`. -/
def PADDING : ℚ := 100

/-- A bounding box in world coordinates. -/
structure BoundingBox where
  minX : ℚ
  minY : ℚ
  maxX : ℚ
  maxY : ℚ
deriving Repr, DecidableEq

/-- Extend a running bounding box (the `hasContent` flag together with
the running `minX … maxY` of `calculateBounds`). -/
def bbJoin (acc : Option BoundingBox) (nb : BoundingBox) : Option BoundingBox :=
  match acc with
  | none => some nb
  | some bb => some
      { minX := min bb.minX nb.minX, minY := min bb.minY nb.minY,
        maxX := max bb.maxX nb.maxX, maxY := max bb.maxY nb.maxY }

/-- `calculateBounds`: fold the extents of surviving strokes (one box per
point, padded by the stroke width), shapes (start/end corners padded by
width) and text (the `0.6 · fontSize` per character / `1.3 · fontSize`
per line metric); `null` when nothing contributed. -/
def boundsStep (deletedIds : List String) (acc : Option BoundingBox)
    (event : DrawEvent) : Option BoundingBox :=
  match event.type, event.payload with
  | .stroke, .stroke p =>
      if deletedIds.contains p.strokeId then acc
      else p.points.foldl (fun a pt =>
        bbJoin a { minX := pt.1 - p.width, minY := pt.2 - p.width,
                   maxX := pt.1 + p.width, maxY := pt.2 + p.width }) acc
  | .shape, .shape p =>
      if deletedIds.contains p.strokeId then acc
      else bbJoin acc
        { minX := min (p.start.1 - p.width) (p.endp.1 - p.width),
          minY := min (p.start.2 - p.width) (p.endp.2 - p.width),
          maxX := max (p.start.1 + p.width) (p.endp.1 + p.width),
          maxY := max (p.start.2 + p.width) (p.endp.2 + p.width) }
  | .text, .text p =>
      if deletedIds.contains p.strokeId then acc
      else
        let lines := p.text.splitOn "\n"
        let maxLen := (lines.map String.length).foldl max 0
        let textWidth := (maxLen : ℚ) * p.fontSize * (3 / 5)
        let textHeight := (lines.length : ℚ) * p.fontSize * (13 / 10)
        bbJoin acc
          { minX := p.position.1, minY := p.position.2,
            maxX := p.position.1 + textWidth,
            maxY := p.position.2 + textHeight }
  | _, _ => acc

def calculateBounds (events : List DrawEvent) (deletedIds : List String) :
    Option BoundingBox :=
  events.foldl (boundsStep deletedIds) none

/-- `Set.prototype.add` for stroke-id strings. -/
def jsStrSetAdd (s : List String) (x : String) : List String :=
  if x ∈ s then s else s ++ [x]

/-- The renderer's first pass: walk the whole list collecting
`deletedIds` (a `clear` resets the set) and the index of the last
`clear` event. -/
def pass1Step (acc : List String × Option ℕ × ℕ) (event : DrawEvent) :
    List String × Option ℕ × ℕ :=
  match event.type, event.payload with
  | .delete, .delete p =>
      (p.strokeIds.foldl jsStrSetAdd acc.1, acc.2.1, acc.2.2 + 1)
  | .clear, _ => ([], some acc.2.2, acc.2.2 + 1)
  | _, _ => (acc.1, acc.2.1, acc.2.2 + 1)

def snapshotPass1 (events : List DrawEvent) : List String × Option ℕ :=
  let final := events.foldl pass1Step ([], none, 0)
  (final.1, final.2.1)

/-- Whether the second pass draws this event (a surviving stroke, shape
or text whose id is not deleted). -/
def isRendered (deletedIds : List String) (event : DrawEvent) : Bool :=
  match event.type, event.payload with
  | .stroke, .stroke p => ¬ deletedIds.contains p.strokeId
  | .shape, .shape p => ¬ deletedIds.contains p.strokeId
  | .text, .text p => ¬ deletedIds.contains p.strokeId
  | _, _ => false

/-- The observable result of `renderEventsToSnapshot`: canvas size,
world-space origin of the returned image, and the events replayed onto
the canvas in order. -/
structure SnapshotGeom where
  width : ℤ
  height : ℤ
  offsetX : ℚ
  offsetY : ℚ
  rendered : List DrawEvent
deriving Repr, DecidableEq

/-- `renderEventsToSnapshot`, lines 85–159: first pass, slice after the
last `clear`, bounding box; a contentless board yields a 1×1 transparent
canvas at `(0, 0)`; otherwise the canvas is the padded bounding box
clamped to `MAX_CANVAS_SIZE` and the returned origin is
`(minX - PADDING, minY - PADDING)`. -/
def renderEventsToSnapshot (events : List DrawEvent) : SnapshotGeom :=
  let pass1 := snapshotPass1 events
  let deletedIds := pass1.1
  let eventsToRender :=
    match pass1.2 with
    | some i => events.drop (i + 1)
    | none => events
  match calculateBounds eventsToRender deletedIds with
  | none =>
      { width := 1, height := 1, offsetX := 0, offsetY := 0, rendered := [] }
  | some bounds =>
      { width := min MAX_CANVAS_SIZE
          (Int.ceil (bounds.maxX - bounds.minX + PADDING * 2)),
        height := min MAX_CANVAS_SIZE
          (Int.ceil (bounds.maxY - bounds.minY + PADDING * 2)),
        offsetX := bounds.minX - PADDING,
        offsetY := bounds.minY - PADDING,
        rendered := eventsToRender.filter (isRendered deletedIds) }

/-! ### Spec-side characterizations (for the refinement claims)

These re-state, in the specification's vocabulary, what the renderer and
the sync reply are supposed to produce; the claims compare them with the
source translations above. -/

/-- Spec side: the events strictly after the last `clear`, found by
scanning from the right. -/
def survivorsSpec (events : List DrawEvent) : List DrawEvent :=
  match events.reverse.findIdx? (fun e => e.type == .clear) with
  | some j => events.drop (events.length - j)
  | none => events

/-- Spec side: the stroke ids referenced by any `delete` event of a
list. -/
def deleteIdsOf : List DrawEvent → List String
| [] => []
| e :: rest =>
    (match e.type, e.payload with
     | .delete, .delete p => p.strokeIds
     | _, _ => []) ++ deleteIdsOf rest

/-- Spec side: whether an event has renderable extent given the deleted
ids (a non-deleted shape or text, or a non-deleted stroke with at least
one point). -/
def hasExtent (deletedIds : List String) (event : DrawEvent) : Bool :=
  match event.type, event.payload with
  | .stroke, .stroke p => ¬ deletedIds.contains p.strokeId && ¬ p.points.isEmpty
  | .shape, .shape p => ¬ deletedIds.contains p.strokeId
  | .text, .text p => ¬ deletedIds.contains p.strokeId
  | _, _ => false

/-! ### Further spec-side definitions used by the claims -/

/-- The `seq` values persisted for a board, in row order. -/
def seqsOf (db : Db) (boardId : String) : List ℕ :=
  (db.events.filter (fun e => e.boardId == boardId)).map DrawEvent.seq

/-- The `seq` values assigned and persisted for a board by a run of the
sequencer, in call order. -/
def okSeqsFor (out : List (Except Unit DrawEvent)) (boardId : String) :
    List ℕ :=
  out.filterMap (fun r =>
    match r with
    | .ok e => if e.boardId == boardId then some e.seq else none
    | .error _ => none)

/-- The last `queueCursorUpdate` call of a tick for a `(board, user)`
pair. -/
def lastQueued (calls : List QueuedCursor) (boardId userId : String) :
    Option QueuedCursor :=
  calls.reverse.find? (fun q => q.boardId == boardId && q.userId == userId)

instance : IsTotal DrawEvent (fun a b => a.seq ≤ b.seq) :=
  ⟨fun a b => Nat.le_total a.seq b.seq⟩

instance : IsTrans DrawEvent (fun a b => a.seq ≤ b.seq) :=
  ⟨fun _ _ _ hab hbc => Nat.le_trans hab hbc⟩

/-- The `CursorData` stored by `queueCursorUpdate` for a queued call. -/
def cdOf (q : QueuedCursor) : CursorData :=
  { userId := q.userId, displayName := q.displayName,
    avatarColor := q.avatarColor, x := q.x, y := q.y }

/-- Structural well-formedness of the cursor-batch state: keys are
duplicate-free at both levels and every entry is keyed by its own
`userId` (automatic for states built by `queueCursorUpdate`). -/
def CbWF (cb : CursorBatches) : Prop :=
  (JsMap.keys cb).Nodup ∧
  ∀ p ∈ cb, (JsMap.keys p.2).Nodup ∧ ∀ q ∈ p.2, (q.2).userId = q.1

/-- The sequencer log invariant for one board: the persisted `seq`
multiset is exactly `{1 .. maxSeq}`. -/
def SeqWF (db : Db) (boardId : String) : Prop :=
  (seqsOf db boardId : Multiset ℕ) =
    (List.range' 1 (getMaxSeq db boardId) : Multiset ℕ)

/-- The in-memory counters agree with the log: any initialized counter
holds `maxSeq + 1`. -/
def CounterConsistent (db : Db) (st : SeqSt) : Prop :=
  ∀ b n, JsMap.get st b = some n → n = getMaxSeq db b + 1

/-! ### Concrete fixtures used by witnesses and counterexamples -/

/-- An empty database. -/
def emptyDb : Db := { boards := [], events := [], snapshots := [] }

/-- A private board owned by `u1`. -/
def privBoard : Board :=
  { id := "p", createdAt := 0, name := none, ownerId := some "u1",
    isPrivate := true }

/-- A database holding only `privBoard`. -/
def privDb : Db := { boards := [("p", privBoard)], events := [], snapshots := [] }

/-- A concrete identity for user `u`. -/
def identU : UserIdentity :=
  { userId := "u", displayName := "U", isAnonymous := true,
    avatarColor := some "#FF6B6B" }

/-- A concrete identity for user `v`. -/
def identV : UserIdentity :=
  { userId := "v", displayName := "V", isAnonymous := true,
    avatarColor := some "#4ECDC4" }

/-- A public board `b`. -/
def pubBoard : Board :=
  { id := "b", createdAt := 0, name := none, ownerId := none,
    isPrivate := false }

/-- A bare `clear` event on board `b` with a given `seq`. -/
def evN (s : ℕ) : DrawEvent :=
  { boardId := "b", seq := s, type := .clear, userId := "u",
    timestamp := 0, payload := .clear }

/-- A database with the public board `b` and five persisted events. -/
def db5 : Db :=
  { boards := [("b", pubBoard)],
    events := [evN 1, evN 2, evN 3, evN 4, evN 5], snapshots := [] }

/-- A draw request whose persistence succeeds. -/
def rqOk : SeqReq :=
  { boardId := "b", userId := "u", type := .clear, payload := .clear,
    timestamp := 0, dbOk := true }

/-- A draw request whose persistence fails. -/
def rqFail : SeqReq := { rqOk with dbOk := false }

/-- A one-point stroke `s1` on board `b` (for the renderer witness). -/
def evW1 : DrawEvent :=
  { boardId := "b", seq := 1, type := .stroke, userId := "u",
    timestamp := 0,
    payload := .stroke { strokeId := "s1", color := "#000000", width := 2,
                         opacity := none, points := [(5, 5)] } }

/-- A delete of stroke `s1` (for the renderer witness). -/
def evW2 : DrawEvent :=
  { boardId := "b", seq := 2, type := .delete, userId := "u",
    timestamp := 0, payload := .delete { strokeIds := ["s1"] } }

/-! END OF DEFINITIONS -/

/-! ## Theorems -/

/-! ### JsMap lemmas -/

namespace JsMap

variable {K V : Type} [DecidableEq K]

@[simp] theorem get_empty (k : K) : get (empty : JsMap K V) k = none := rfl

@[simp] theorem get_set_self (m : JsMap K V) (k : K) (v : V) :
    get (set m k v) k = some v := by
  induction m with
  | nil => simp [set, get]
  | cons kv rest ih =>
      obtain ⟨k', v'⟩ := kv
      by_cases h : k' = k <;> simp [set, get, h, ih]

@[simp] theorem get_set_ne (m : JsMap K V) (k k' : K) (v : V) (h : k ≠ k') :
    get (set m k v) k' = get m k' := by
  induction m with
  | nil => simp [set, get, h]
  | cons kv rest ih =>
      obtain ⟨k₀, v₀⟩ := kv
      by_cases h₀ : k₀ = k
      · subst h₀; simp [set, get, h]
      · simp only [set, if_neg h₀, get]
        by_cases h₁ : k₀ = k' <;> simp [h₁, ih]

/-- A key with a binding is a member of the key list. -/
theorem mem_keys_of_get_isSome (m : JsMap K V) (k : K)
    (h : (get m k).isSome) : k ∈ keys m := by
  induction m with
  | nil => simp [get] at h
  | cons kv rest ih =>
      obtain ⟨k₀, v₀⟩ := kv
      simp only [keys, List.map_cons, List.mem_cons]
      by_cases h₀ : k₀ = k
      · exact Or.inl h₀.symm
      · simp only [get, if_neg h₀] at h
        exact Or.inr (by simpa [keys] using ih h)

@[simp] theorem get_del_self (m : JsMap K V) (k : K) (hnd : (keys m).Nodup) :
    get (del m k) k = none := by
  induction m with
  | nil => simp [del, get]
  | cons kv rest ih =>
      obtain ⟨k₀, v₀⟩ := kv
      simp only [keys, List.map_cons, List.nodup_cons] at hnd
      by_cases h₀ : k₀ = k
      · subst h₀
        simp only [del, if_pos rfl]
        cases hget : get rest k₀ with
        | none => exact hget
        | some v =>
            exact absurd (mem_keys_of_get_isSome rest k₀ (by simp [hget]))
              (by simpa [keys] using hnd.1)
      · simp only [del, if_neg h₀, get, if_neg h₀]
        exact ih hnd.2

@[simp] theorem get_del_ne (m : JsMap K V) (k k' : K) (h : k ≠ k') :
    get (del m k) k' = get m k' := by
  induction m with
  | nil => simp [del]
  | cons kv rest ih =>
      obtain ⟨k₀, v₀⟩ := kv
      by_cases h₀ : k₀ = k
      · subst h₀; simp [del, get, h]
      · simp only [del, if_neg h₀, get]
        by_cases h₁ : k₀ = k' <;> simp [h₁, ih]

/-- Deleting a key that was just appended by `set` (on a map without that
key) restores the original map. -/
theorem del_set_of_not_mem (m : JsMap K V) (k : K) (v : V)
    (h : get m k = none) : del (set m k v) k = m := by
  induction m with
  | nil => simp [set, del]
  | cons kv rest ih =>
      obtain ⟨k₀, v₀⟩ := kv
      simp only [get] at h
      by_cases h₀ : k₀ = k
      · simp [h₀] at h
      · simp only [set, if_neg h₀, del, if_neg h₀]
        rw [ih (by simpa [h₀] using h)]

/-- `set` leaves the key list unchanged when the key is already present. -/
theorem keys_set_of_mem (m : JsMap K V) (k : K) (v : V)
    (h : (get m k).isSome) : keys (set m k v) = keys m := by
  induction m with
  | nil => simp [get] at h
  | cons kv rest ih =>
      obtain ⟨k₀, v₀⟩ := kv
      by_cases h₀ : k₀ = k
      · simp [set, h₀, keys]
      · simp only [get, if_neg h₀] at h
        simp only [set, if_neg h₀, keys, List.map_cons, List.cons.injEq, true_and]
        simpa [keys] using ih h

/-- Re-writing the value a key already has is a no-op. -/
theorem set_get_self (m : JsMap K V) (k : K) (v : V)
    (h : get m k = some v) : set m k v = m := by
  induction m with
  | nil => simp [get] at h
  | cons kv rest ih =>
      obtain ⟨k₀, v₀⟩ := kv
      simp only [get] at h
      by_cases h₀ : k₀ = k
      · simp only [if_pos h₀] at h
        cases h
        simp [set, h₀]
      · simp only [if_neg h₀] at h
        simp [set, if_neg h₀, ih h]

/-- Setting the same key twice keeps only the second value. -/
theorem set_set (m : JsMap K V) (k : K) (v w : V) :
    set (set m k v) k w = set m k w := by
  induction m with
  | nil => simp [set]
  | cons kv rest ih =>
      obtain ⟨k₀, v₀⟩ := kv
      by_cases h₀ : k₀ = k
      · simp [set, h₀]
      · simp [set, if_neg h₀, ih]

/-- `set` appends the key when it is absent. -/
theorem keys_set_of_not_mem (m : JsMap K V) (k : K) (v : V)
    (h : get m k = none) : keys (set m k v) = keys m ++ [k] := by
  induction m with
  | nil => simp [set, keys]
  | cons kv rest ih =>
      obtain ⟨k₀, v₀⟩ := kv
      simp only [get] at h
      by_cases h₀ : k₀ = k
      · simp [h₀] at h
      · simp only [set, if_neg h₀, keys, List.map_cons, List.cons_append,
          List.cons.injEq, true_and]
        simpa [keys] using ih (by simpa [h₀] using h)


/-- A binding found by `get` is a member of the list. -/
theorem mem_of_get (m : JsMap K V) (k : K) (v : V)
    (h : get m k = some v) : (k, v) ∈ m := by
  induction m with
  | nil => simp [get] at h
  | cons kv rest ih =>
      obtain ⟨k₀, v₀⟩ := kv
      simp only [get] at h
      by_cases h₀ : k₀ = k
      · subst h₀
        simp only [if_pos, Option.some.injEq] at h
        rw [← h]
        exact List.mem_cons_self _ _
      · exact List.mem_cons_of_mem _ (ih (by simpa [h₀] using h))

/-- On a map with duplicate-free keys, membership determines `get`. -/
theorem get_of_mem_nodup (m : JsMap K V) (k : K) (v : V)
    (hnd : (keys m).Nodup) (h : (k, v) ∈ m) : get m k = some v := by
  induction m with
  | nil => simp at h
  | cons kv rest ih =>
      obtain ⟨k₀, v₀⟩ := kv
      simp only [keys, List.map_cons, List.nodup_cons] at hnd
      rcases List.mem_cons.mp h with h | h
      · cases h
        simp [get]
      · have hk : k₀ ≠ k := by
          intro hkk
          subst hkk
          exact hnd.1 (by simpa [keys] using List.mem_map_of_mem Prod.fst h)
        simp only [get, if_neg hk]
        exact ih hnd.2 h

/-- A key without a binding is not in the key list. -/
theorem not_mem_keys_of_get_none (m : JsMap K V) (k : K)
    (h : get m k = none) : k ∉ keys m := by
  induction m with
  | nil => simp [keys]
  | cons kv rest ih =>
      obtain ⟨k₀, v₀⟩ := kv
      simp only [get] at h
      by_cases h₀ : k₀ = k
      · simp [h₀] at h
      · simp only [keys, List.map_cons, List.mem_cons]
        push_neg
        exact ⟨fun hh => h₀ hh.symm,
          by simpa [keys] using ih (by simpa [h₀] using h)⟩

/-- Members of `set m k v` come from `m` or are the new binding. -/
theorem mem_set (m : JsMap K V) (k : K) (v : V) :
    ∀ p ∈ set m k v, p ∈ m ∨ p = (k, v) := by
  induction m with
  | nil =>
      intro p hp
      simp only [set, List.mem_singleton] at hp
      exact Or.inr hp
  | cons kv rest ih =>
      obtain ⟨k₀, v₀⟩ := kv
      intro p hp
      by_cases h₀ : k₀ = k
      · subst h₀
        simp only [set, if_pos, List.mem_cons] at hp
        rcases hp with hp | hp
        · exact Or.inr hp
        · exact Or.inl (List.mem_cons_of_mem _ hp)
      · simp only [set, if_neg h₀, List.mem_cons] at hp
        rcases hp with hp | hp
        · exact Or.inl (by simp [hp])
        · rcases ih p hp with h | h
          · exact Or.inl (List.mem_cons_of_mem _ h)
          · exact Or.inr h

end JsMap

/-! ### Rate limiter lemmas -/

theorem runBucket_cons (bucket : Bucket) (rr mx : ℚ) (t : ℚ) (ts : List ℚ) :
    runBucket bucket rr mx (t :: ts) =
      ((runBucket (tryConsume bucket t rr mx).1 rr mx ts).1,
        (tryConsume bucket t rr mx).2 ::
          (runBucket (tryConsume bucket t rr mx).1 rr mx ts).2) := by
  rcases hc : tryConsume bucket t rr mx with ⟨b', ok⟩
  rcases hr : runBucket b' rr mx ts with ⟨bf, oks⟩
  simp [runBucket, hc, hr]

theorem admittedCount_cons (bucket : Bucket) (rr mx : ℚ) (t : ℚ) (ts : List ℚ) :
    admittedCount bucket rr mx (t :: ts) =
      (if (tryConsume bucket t rr mx).2 then 1 else 0) +
        admittedCount (tryConsume bucket t rr mx).1 rr mx ts := by
  rcases hc : tryConsume bucket t rr mx with ⟨b', ok⟩
  unfold admittedCount
  rw [runBucket_cons, hc]
  cases ok <;> simp [List.filter, Nat.add_comm]

/-- Telescoping bound: over any sorted run the number of admitted calls is
at most the initial token count plus the refill accumulated up to a time
bound `T`. -/
theorem admittedCount_le_refill (rr mx : ℚ) (hrr : 0 ≤ rr) (hmx : 0 ≤ mx) :
    ∀ (ts : List ℚ) (bucket : Bucket), 0 ≤ bucket.tokens →
      List.Chain (· ≤ ·) bucket.lastRefill ts →
      ∀ T : ℚ, bucket.lastRefill ≤ T → (∀ t ∈ ts, t ≤ T) →
      (admittedCount bucket rr mx ts : ℚ) ≤
        bucket.tokens + (T - bucket.lastRefill) / 1000 * rr
| [], bucket, htok, _, T, hT, _ => by
    have h0 : (0 : ℚ) ≤ (T - bucket.lastRefill) / 1000 * rr :=
      mul_nonneg (div_nonneg (by linarith) (by norm_num)) hrr
    simpa [admittedCount, runBucket] using by linarith
| t :: ts, bucket, htok, hch, T, hT, hts => by
    rw [List.chain_cons] at hch
    have hlt : bucket.lastRefill ≤ t := hch.1
    have htT : t ≤ T := hts t (List.mem_cons_self t ts)
    set b1 := refillBucket bucket t rr mx with hb1
    have hb1tok : b1.tokens = min mx (bucket.tokens + (t - bucket.lastRefill) / 1000 * rr) := by
      simp [hb1, refillBucket]
    have hb1last : b1.lastRefill = t := by simp [hb1, refillBucket]
    have hb1le : b1.tokens ≤ bucket.tokens + (t - bucket.lastRefill) / 1000 * rr := by
      rw [hb1tok]; exact min_le_right _ _
    have hb1nonneg : 0 ≤ b1.tokens := by
      rw [hb1tok]
      have h0 : (0 : ℚ) ≤ (t - bucket.lastRefill) / 1000 * rr :=
        mul_nonneg (div_nonneg (by linarith) (by norm_num)) hrr
      exact le_min hmx (by linarith)
    have hsplit : (t - bucket.lastRefill) / 1000 * rr + (T - t) / 1000 * rr =
        (T - bucket.lastRefill) / 1000 * rr := by ring
    by_cases hc : (1 : ℚ) ≤ b1.tokens
    · -- admitted: one token consumed
      have hstep : tryConsume bucket t rr mx =
          ({ b1 with tokens := b1.tokens - 1 }, true) := by
        simp [tryConsume, ← hb1, hc]
      have ih := admittedCount_le_refill rr mx hrr hmx ts
        { b1 with tokens := b1.tokens - 1 } (by simp; linarith)
        (by simpa [hb1last] using hch.2) T (by simpa [hb1last] using htT)
        (fun x hx => hts x (List.mem_cons_of_mem t hx))
      rw [admittedCount_cons, hstep]
      simp only [hb1last] at ih
      push_cast
      norm_num
      rw [hb1last]
      linarith
    · -- rejected: no token consumed
      have hstep : tryConsume bucket t rr mx = (b1, false) := by
        simp [tryConsume, ← hb1, hc]
      have ih := admittedCount_le_refill rr mx hrr hmx ts b1 hb1nonneg
        (by simpa [hb1last] using hch.2) T (by simpa [hb1last] using htT)
        (fun x hx => hts x (List.mem_cons_of_mem t hx))
      rw [admittedCount_cons, hstep]
      simp only [hb1last] at ih
      push_cast
      norm_num
      linarith

/-- In any window of 1000 ms, a bucket admits at most
`maxTokens + refillRate` calls: the first refill is capped at the bucket
capacity and at most one second of refill accrues inside the window. -/
theorem admittedCount_window (rr mx : ℚ) (hrr : 0 ≤ rr) (hmx : 0 ≤ mx)
    (bucket : Bucket) (htok : 0 ≤ bucket.tokens) (s : ℚ)
    (_hlast : bucket.lastRefill ≤ s) (ts : List ℚ)
    (hch : List.Chain (· ≤ ·) bucket.lastRefill ts)
    (hwin : ∀ t ∈ ts, s ≤ t ∧ t ≤ s + 1000) :
    (admittedCount bucket rr mx ts : ℚ) ≤ mx + rr := by
  cases ts with
  | nil => simpa [admittedCount, runBucket] using by linarith
  | cons t ts =>
      rw [List.chain_cons] at hch
      have hst : s ≤ t := (hwin t (List.mem_cons_self t ts)).1
      have htw : t ≤ s + 1000 := (hwin t (List.mem_cons_self t ts)).2
      set b1 := refillBucket bucket t rr mx with hb1
      have hb1tok : b1.tokens = min mx (bucket.tokens + (t - bucket.lastRefill) / 1000 * rr) := by
        simp [hb1, refillBucket]
      have hb1last : b1.lastRefill = t := by simp [hb1, refillBucket]
      have hb1cap : b1.tokens ≤ mx := by rw [hb1tok]; exact min_le_left _ _
      have hb1nonneg : 0 ≤ b1.tokens := by
        rw [hb1tok]
        have h0 : bucket.lastRefill ≤ t := hch.1
        have h1 : (0 : ℚ) ≤ (t - bucket.lastRefill) / 1000 * rr :=
          mul_nonneg (div_nonneg (by linarith) (by norm_num)) hrr
        exact le_min hmx (by linarith)
      have hrefill : (s + 1000 - t) / 1000 * rr ≤ rr := by
        have hfrac : (s + 1000 - t) / 1000 ≤ 1 := by
          rw [div_le_one (by norm_num : (0:ℚ) < 1000)]; linarith
        have hfrac0 : (0 : ℚ) ≤ (s + 1000 - t) / 1000 :=
          div_nonneg (by linarith) (by norm_num)
        nlinarith
      by_cases hc : (1 : ℚ) ≤ b1.tokens
      · have hstep : tryConsume bucket t rr mx =
            ({ b1 with tokens := b1.tokens - 1 }, true) := by
          simp [tryConsume, ← hb1, hc]
        have htail := admittedCount_le_refill rr mx hrr hmx ts
          { b1 with tokens := b1.tokens - 1 } (by simp; linarith)
          (by simpa [hb1last] using hch.2) (s + 1000)
          (by simpa [hb1last] using htw)
          (fun x hx => (hwin x (List.mem_cons_of_mem t hx)).2)
        rw [admittedCount_cons, hstep]
        simp only [hb1last] at htail
        push_cast
        norm_num
        rw [hb1last]
        linarith
      · have hstep : tryConsume bucket t rr mx = (b1, false) := by
          simp [tryConsume, ← hb1, hc]
        have htail := admittedCount_le_refill rr mx hrr hmx ts b1 hb1nonneg
          (by simpa [hb1last] using hch.2) (s + 1000)
          (by simpa [hb1last] using htw)
          (fun x hx => (hwin x (List.mem_cons_of_mem t hx)).2)
        rw [admittedCount_cons, hstep]
        simp only [hb1last] at htail
        push_cast
        norm_num
        linarith


/-! ### C2: failed persistence (sequencer rollback) -/

/-- C2 counterexample: `sequenceEvent` reserves the `seq` by writing
`seq + 1` into `nextSeq` *before* persisting; when `appendEvent` throws,
no rollback happens.  With the counter at 1, a failing call leaves it at
2, so the claim that the counter is unchanged is false. -/
theorem sequencer_rollback_counterexample :
    (sequenceEvent { boards := [], events := [], snapshots := [] }
        [("b", 1)] "b" "u" .clear .clear 0 false).1 ≠ [("b", 1)] ∧
    (sequenceEvent { boards := [], events := [], snapshots := [] }
        [("b", 1)] "b" "u" .clear .clear 0 false).1 = [("b", 2)] := by
  decide

/-- C2 amended: when persisting a sequenced event fails, the event is
not persisted and not fanned out and the caller gets
`ERROR{DRAW_FAILED}`, but the reserved `seq` stays committed: the
counter ends at `reserved + 1` (no rollback). -/
theorem drawEvent_persistenceFailure (db : Db) (ps : PresenceSt)
    (st : SeqSt) (bucket : Option Bucket) (now : ℚ) (ws : ConnId)
    (ty : DrawEventType) (p : DrawEventPayload) (ts : ℕ)
    (boardId : String) (identity : UserIdentity)
    (hb : getConnectionBoard ps ws = some boardId)
    (hi : getConnectionIdentity ps ws = some identity)
    (hadm : (tryConsume (getBucket bucket now DRAW_BUCKET_SIZE) now
      DRAW_REFILL_RATE DRAW_BUCKET_SIZE).2 = true) :
    (handleDrawEvent db ps st bucket now ws ty p ts false).toCaller =
        [.errorMsg "DRAW_FAILED" "Failed to process draw event"] ∧
    (handleDrawEvent db ps st bucket now ws ty p ts false).toAll = [] ∧
    (handleDrawEvent db ps st bucket now ws ty p ts false).db = db ∧
    (handleDrawEvent db ps st bucket now ws ty p ts false).seqSt =
      JsMap.set (initBoardSequence db st boardId) boardId
        ((JsMap.get (initBoardSequence db st boardId) boardId).getD 0 + 1) := by
  rcases hc : tryConsume (getBucket bucket now DRAW_BUCKET_SIZE) now
      DRAW_REFILL_RATE DRAW_BUCKET_SIZE with ⟨b1, allowed⟩
  rw [hc] at hadm
  subst hadm
  simp only [handleDrawEvent, hc, Bool.not_true, Bool.false_eq_true,
    if_false, hb, hi, sequenceEvent]
  refine ⟨rfl, rfl, rfl, rfl⟩

/-- C2 witness: a concrete failing draw on a joined connection. -/
theorem drawEvent_persistenceFailure_witness :
    (handleDrawEvent { boards := [], events := [], snapshots := [] }
        (joinBoard PresenceSt.initial 7 "b"
          { userId := "u", displayName := "U", isAnonymous := true,
            avatarColor := some "#FF6B6B" } 0).1
        [] none 0 7 .clear .clear 0 false).toCaller =
      [.errorMsg "DRAW_FAILED" "Failed to process draw event"] := by
  exact (drawEvent_persistenceFailure _ _ _ _ _ _ _ _ _ "b"
    { userId := "u", displayName := "U", isAnonymous := true,
      avatarColor := some "#FF6B6B" }
    (by decide) (by decide)
    (by norm_num [tryConsume, refillBucket, getBucket, DRAW_BUCKET_SIZE,
      DRAW_REFILL_RATE])).1

/-! ### C5: messages before HELLO -/

/-- Helper: `handleCursorMove` never sends anything to the caller. -/
theorem handleCursorMove_toCaller (ps : PresenceSt) (cb : CursorBatches)
    (bucket : Option Bucket) (now : ℚ) (ws : ConnId) (x y : ℚ)
    (nowMs : ℕ) :
    (handleCursorMove ps cb bucket now ws x y nowMs).toCaller = [] := by
  unfold handleCursorMove
  rcases hc : tryConsume (getBucket bucket now CURSOR_BUCKET_SIZE) now
      CURSOR_REFILL_RATE CURSOR_BUCKET_SIZE with ⟨b2, allowed⟩
  rcases hu : updateCursor ps ws x y nowMs with ⟨ps2, r⟩
  cases allowed <;> cases r <;> simp [hc, hu]

/-- C5 counterexample: a `CURSOR_MOVE` from a connection still in the
`New` state is silently ignored — `handleCursorMove` never sends
`ERROR{NOT_JOINED}` (or anything else) to the caller. -/
theorem cursorMove_notJoined_counterexample :
    (handleCursorMove PresenceSt.initial [] none 0 7 1 2 0).toCaller = [] ∧
    (handleCursorMove PresenceSt.initial [] none 0 7 1 2 0).toCaller ≠
      [.errorMsg "NOT_JOINED" "Must send HELLO first"] := by
  refine ⟨handleCursorMove_toCaller _ _ _ _ _ _ _ _, ?_⟩
  rw [handleCursorMove_toCaller]
  simp

/-- C5 amended: before HELLO, a `DRAW_EVENT` that passes the draw rate
limiter is answered with `ERROR{NOT_JOINED}` (a rate-limited one is
dropped silently), while a `CURSOR_MOVE` never produces any reply. -/
theorem notJoined_replies (db : Db) (ps : PresenceSt) (st : SeqSt)
    (bucket bucket' : Option Bucket) (cb : CursorBatches) (now now' : ℚ)
    (ws : ConnId) (ty : DrawEventType) (p : DrawEventPayload)
    (ts : ℕ) (dbOk : Bool) (x y : ℚ) (nowMs : ℕ)
    (hnew : getConnectionBoard ps ws = none) :
    ((handleDrawEvent db ps st bucket now ws ty p ts dbOk).toCaller =
      (if (tryConsume (getBucket bucket now DRAW_BUCKET_SIZE) now
            DRAW_REFILL_RATE DRAW_BUCKET_SIZE).2
       then [.errorMsg "NOT_JOINED" "Must send HELLO first"] else [])) ∧
    (handleDrawEvent db ps st bucket now ws ty p ts dbOk).toAll = [] ∧
    (handleDrawEvent db ps st bucket now ws ty p ts dbOk).db = db ∧
    (handleDrawEvent db ps st bucket now ws ty p ts dbOk).seqSt = st ∧
    (handleCursorMove ps cb bucket' now' ws x y nowMs).toCaller = [] := by
  rcases hc : tryConsume (getBucket bucket now DRAW_BUCKET_SIZE) now
      DRAW_REFILL_RATE DRAW_BUCKET_SIZE with ⟨b1, allowed⟩
  have hcur : (handleCursorMove ps cb bucket' now' ws x y nowMs).toCaller = [] :=
    handleCursorMove_toCaller ps cb bucket' now' ws x y nowMs
  cases allowed with
  | false => simp only [handleDrawEvent, hc, Bool.not_false, if_true]
             exact ⟨rfl, rfl, rfl, rfl, hcur⟩
  | true =>
      simp only [handleDrawEvent, hc, Bool.not_true, Bool.false_eq_true,
        if_false, hnew]
      exact ⟨rfl, rfl, rfl, rfl, hcur⟩

/-- C5 witness: a fresh connection (full bucket) sending a draw before
HELLO gets `NOT_JOINED`; its cursor moves get nothing. -/
theorem notJoined_replies_witness :
    (handleDrawEvent { boards := [], events := [], snapshots := [] }
        PresenceSt.initial [] none 0 7 .clear .clear 0 true).toCaller =
      (if (tryConsume (getBucket none 0 DRAW_BUCKET_SIZE) 0
            DRAW_REFILL_RATE DRAW_BUCKET_SIZE).2
       then [ServerMessage.errorMsg "NOT_JOINED" "Must send HELLO first"]
       else []) ∧
    (handleCursorMove PresenceSt.initial [] none 0 7 1 2 0).toCaller = [] := by
  have h := notJoined_replies { boards := [], events := [], snapshots := [] }
    PresenceSt.initial [] none none [] 0 0 7 .clear .clear 0 true 1 2 0 rfl
  exact ⟨h.1, h.2.2.2.2⟩

/-! ### C9: join / leave round trip -/

/-- C9 counterexample: when another live connection of the same `userId`
already holds the presence entry, `joinBoard` replaces it and
`leaveBoard` deletes it, so the pre-join entry is not restored:
connection 1 of user `u` is present; joining and leaving connection 2
of the same user empties the board's presence list. -/
theorem joinLeave_counterexample :
    getBoardPresence
      (leaveBoard
        (joinBoard
          (joinBoard PresenceSt.initial 1 "b"
            { userId := "u", displayName := "U", isAnonymous := true,
              avatarColor := some "#FF6B6B" } 10).1
          2 "b"
          { userId := "u", displayName := "U", isAnonymous := true,
            avatarColor := some "#FF6B6B" } 20).1
        2).1 "b" ≠
    getBoardPresence
      (joinBoard PresenceSt.initial 1 "b"
        { userId := "u", displayName := "U", isAnonymous := true,
          avatarColor := some "#FF6B6B" } 10).1 "b" := by
  decide

/-- C9 amended: `join` then `leave` on the same connection restores the
board's presence list provided the joining `userId` had no presence
entry on that board before the join; if another connection of the same
user already held an entry, the join replaces it and the leave removes
it. -/
theorem joinLeave_presence_roundtrip (ps : PresenceSt) (ws : ConnId)
    (boardId : String) (identity : UserIdentity) (now : ℕ)
    (hnd : (JsMap.keys ps.presenceByBoard).Nodup)
    (hnouser : JsMap.get ((JsMap.get ps.presenceByBoard boardId).getD
      JsMap.empty) identity.userId = none) :
    getBoardPresence (leaveBoard (joinBoard ps ws boardId identity now).1 ws).1
        boardId =
      getBoardPresence ps boardId := by
  rcases hj : joinBoard ps ws boardId identity now with ⟨ps1, pr⟩
  have hps1 : ps1 = (joinBoard ps ws boardId identity now).1 := by rw [hj]
  simp only [joinBoard] at hj
  cases hj
  simp only [leaveBoard, JsMap.get_set_self, getBoardPresence]
  rcases hpbb : JsMap.get ps.presenceByBoard boardId with _ | pmap
  · -- board had no presence map: the join created it, the leave removes it
    simp only [hpbb, Option.getD_none] at hnouser ⊢
    have hempty : JsMap.get (JsMap.empty : JsMap String PresenceState)
        identity.userId = none := rfl
    rw [JsMap.del_set_of_not_mem _ _ _ hempty]
    simp only [JsMap.size, JsMap.empty, List.length_nil, if_pos]
    rw [JsMap.del_set_of_not_mem _ _ _ hpbb, hpbb]
  · -- board already had a presence map without this user
    simp only [hpbb, Option.getD_some] at hnouser ⊢
    rw [JsMap.del_set_of_not_mem _ _ _ hnouser]
    by_cases hsz : JsMap.size pmap = 0
    · -- the existing map was empty: the board key is deleted outright,
      -- and the presence list is empty on both sides
      have hnil : pmap = [] := List.length_eq_zero.mp hsz
      subst hnil
      simp only [JsMap.size, List.length_nil, if_pos]
      have hkeys : (JsMap.keys (JsMap.set ps.presenceByBoard boardId
          (JsMap.set ([] : JsMap String PresenceState) identity.userId
            { boardId := boardId, userId := identity.userId,
              displayName := identity.displayName,
              isAnonymous := identity.isAnonymous,
              avatarColor := identity.avatarColor, cursor := none,
              connectedAt := now }))).Nodup := by
        rw [JsMap.keys_set_of_mem _ _ _ (by simp [hpbb])]
        exact hnd
      rw [JsMap.get_del_self _ _ hkeys]
      rfl
    · simp only [if_neg hsz]
      rw [JsMap.set_set, JsMap.set_get_self _ _ _ hpbb, hpbb]

/-- C9 witness: a fresh user joining and leaving an occupied board. -/
theorem joinLeave_presence_roundtrip_witness :
    getBoardPresence
      (leaveBoard
        (joinBoard
          (joinBoard PresenceSt.initial 1 "b"
            { userId := "u", displayName := "U", isAnonymous := true,
              avatarColor := some "#FF6B6B" } 10).1
          2 "b"
          { userId := "v", displayName := "V", isAnonymous := true,
            avatarColor := some "#4ECDC4" } 20).1
        2).1 "b" =
    getBoardPresence
      (joinBoard PresenceSt.initial 1 "b"
        { userId := "u", displayName := "U", isAnonymous := true,
          avatarColor := some "#FF6B6B" } 10).1 "b" :=
  joinLeave_presence_roundtrip _ 2 "b"
    { userId := "v", displayName := "V", isAnonymous := true,
      avatarColor := some "#4ECDC4" } 20 (by decide) (by decide)

/-! ### C4: private-board access control -/

/-- Membership in a JS `Set` after `add`. -/
theorem mem_jsSetAdd (l : List ConnId) (x : ConnId) : x ∈ jsSetAdd l x := by
  unfold jsSetAdd
  by_cases h : x ∈ l <;> simp [h]

/-- C4: on HELLO to an existing private board, a missing subject or a
subject different from the owner gets `ACCESS_DENIED` with a reason, is
not added to the room, creates no presence entry and triggers no
broadcast; the owner (a nonempty verified subject equal to
`board.ownerId`) joins. -/
theorem helloPrivateBoard (db : Db) (ps : PresenceSt) (st : SeqSt)
    (ws : ConnId) (boardId : String) (sub : Option String)
    (clientId displayName : Option String) (isAnonymous : Bool)
    (resume : Option ℕ) (uuid fresh : String) (now : ℕ) (bd : Board)
    (hbd : getBoard db boardId = some bd) (hpriv : bd.isPrivate = true) :
    ((sub = none ∨ sub ≠ bd.ownerId) →
      (∃ reason,
        (handleHello db ps st ws boardId sub clientId displayName
          isAnonymous resume uuid fresh now).toCaller =
        [.accessDenied boardId reason]) ∧
      (handleHello db ps st ws boardId sub clientId displayName
        isAnonymous resume uuid fresh now).toOthers = [] ∧
      (handleHello db ps st ws boardId sub clientId displayName
        isAnonymous resume uuid fresh now).presence = ps ∧
      (handleHello db ps st ws boardId sub clientId displayName
        isAnonymous resume uuid fresh now).db = db ∧
      (handleHello db ps st ws boardId sub clientId displayName
        isAnonymous resume uuid fresh now).seqSt = st) ∧
    (∀ s, sub = some s → s ≠ "" → bd.ownerId = some s →
      getConnectionBoard (handleHello db ps st ws boardId sub clientId
        displayName isAnonymous resume uuid fresh now).presence ws =
        some boardId ∧
      ws ∈ getBoardClients (handleHello db ps st ws boardId sub clientId
        displayName isAnonymous resume uuid fresh now).presence boardId ∧
      (∃ pr, JsMap.get ((JsMap.get (handleHello db ps st ws boardId sub
          clientId displayName isAnonymous resume uuid fresh
          now).presence.presenceByBoard boardId).getD JsMap.empty) s =
        some pr)) := by
  have hsome : (getBoard db boardId).isSome = true := by rw [hbd]; rfl
  constructor
  · intro hdeny
    have hden : ∃ reason,
        helloDenied (getBoard db boardId) sub = some reason := by
      rw [hbd]
      by_cases ht : jsTruthy sub
      · have hne : ¬ bd.ownerId = sub := by
          rcases hdeny with h | h
          · subst h; simp [jsTruthy] at ht
          · exact fun hh => h hh.symm
        exact ⟨"This board is private. Only the owner can access it.",
          by simp [helloDenied, hpriv, ht, hne]⟩
      · exact ⟨"This is a private board. Please sign in to access it.",
          by simp [helloDenied, hpriv, ht]⟩
    obtain ⟨reason, hden⟩ := hden
    have hout : handleHello db ps st ws boardId sub clientId displayName
        isAnonymous resume uuid fresh now =
        { toCaller := [.accessDenied boardId reason], toOthers := [],
          db := db, presence := ps, seqSt := st } := by
      simp only [handleHello, hsome, if_true, hden]
    exact ⟨⟨reason, by rw [hout]⟩, by rw [hout], by rw [hout],
      by rw [hout], by rw [hout]⟩
  · rintro s rfl hs hown
    have ht : jsTruthy (some s) = true := by simp [jsTruthy, hs]
    have hden : helloDenied (getBoard db boardId) (some s) = none := by
      rw [hbd]; simp [helloDenied, hpriv, ht, hown]
    simp only [handleHello, hsome, if_true, hden, helloProceed,
      joinBoard, resolveIdentity, getConnectionBoard, getBoardClients]
    have hid : jsOrStr (jsOrOpt (some s) clientId) uuid = s := by
      simp [jsOrOpt, jsOrStr, ht, hs]
    refine ⟨?_, ?_, ?_⟩
    · simp [JsMap.get_set_self]
    · simp only [JsMap.get_set_self, Option.getD_some]
      exact mem_jsSetAdd _ ws
    · simp only [JsMap.get_set_self, Option.getD_some, hid]
      exact ⟨_, rfl⟩

/-- C4 witness: a private board owned by `u1`; user `u2` is denied with
no broadcast, and `u1` joins. -/
theorem helloPrivateBoard_witness :
    ((handleHello privDb PresenceSt.initial [] 7 "p" (some "u2") none none
        false none "uuid" "anon" 99).toOthers = []) ∧
    ((handleHello privDb PresenceSt.initial [] 7 "p" (some "u2") none none
        false none "uuid" "anon" 99).presence = PresenceSt.initial) ∧
    getConnectionBoard (handleHello privDb PresenceSt.initial [] 7 "p"
        (some "u1") none none false none "uuid" "anon" 99).presence 7 =
      some "p" := by
  have h2 := helloPrivateBoard privDb PresenceSt.initial [] 7 "p"
    (some "u2") none none false none "uuid" "anon" 99 privBoard
    (by decide) (by decide)
  have h1 := helloPrivateBoard privDb PresenceSt.initial [] 7 "p"
    (some "u1") none none false none "uuid" "anon" 99 privBoard
    (by decide) (by decide)
  have hd := h2.1 (Or.inr (by decide))
  exact ⟨hd.2.1, hd.2.2.1, (h1.2 "u1" rfl (by decide) rfl).1⟩

/-! ### C10: identity resolution for verified subjects -/

/-- The avatar color always comes from the fixed 18-entry palette. -/
theorem generateAvatarColor_mem_COLORS (u : String) :
    generateAvatarColor u ∈ COLORS := by
  unfold generateAvatarColor
  have hlt : (stringHash u).natAbs % COLORS.length < COLORS.length :=
    Nat.mod_lt _ (by norm_num [COLORS])
  rw [List.getD_eq_getElem _ _ hlt]
  exact List.getElem_mem hlt

/-- A board freshly created by `ensureBoardExists` is public. -/
theorem getBoard_ensure_of_none (db : Db) (boardId : String) (now : ℕ)
    (h : getBoard db boardId = none) :
    getBoard (ensureBoardExists db boardId none now) boardId =
      some { id := boardId, createdAt := now, name := none,
             ownerId := none, isPrivate := false } := by
  unfold ensureBoardExists getBoard
  rw [getBoard] at h
  simp [h, JsMap.get_set_self, jsTruthy]

/-- C10: a HELLO whose token verifies to a (nonempty) subject `s` — on a
board the caller may access — binds the connection to an identity with
`userId = s` and `isAnonymous = false`, whatever `clientId` and
`isAnonymous` the client sent; the avatar color is the deterministic
`generateAvatarColor s`, drawn from the fixed palette. -/
theorem helloVerifiedIdentity (db : Db) (ps : PresenceSt) (st : SeqSt)
    (ws : ConnId) (boardId : String) (s : String)
    (clientId displayName : Option String) (isAnonymous : Bool)
    (resume : Option ℕ) (uuid fresh : String) (now : ℕ)
    (hs : s ≠ "")
    (hacc : ∀ bd, getBoard db boardId = some bd → bd.isPrivate = true →
      bd.ownerId = some s) :
    ∃ ident,
      getConnectionIdentity (handleHello db ps st ws boardId (some s)
        clientId displayName isAnonymous resume uuid fresh now).presence
        ws = some ident ∧
      ident.userId = s ∧
      ident.isAnonymous = false ∧
      ident.avatarColor = some (generateAvatarColor s) ∧
      generateAvatarColor s ∈ COLORS := by
  have ht : jsTruthy (some s) = true := by simp [jsTruthy, hs]
  have hproceed : ∀ db' : Db,
      getConnectionIdentity (helloProceed db' ps st ws boardId (some s)
        clientId displayName isAnonymous resume uuid fresh now).presence
        ws =
      some (resolveIdentity (jsOrOpt (some s) clientId) displayName
        (!(jsTruthy (some s)) && isAnonymous) uuid fresh) := by
    intro db'
    simp only [helloProceed, joinBoard, getConnectionIdentity]
    rw [JsMap.get_set_self]
  have hident : resolveIdentity (jsOrOpt (some s) clientId) displayName
      (!(jsTruthy (some s)) && isAnonymous) uuid fresh =
      { userId := s, displayName := jsOrStr displayName fresh,
        isAnonymous := false,
        avatarColor := some (generateAvatarColor s) } := by
    simp [resolveIdentity, jsOrOpt, jsOrStr, ht, hs]
  cases hbd : getBoard db boardId with
  | none =>
      have hsome : (getBoard db boardId).isSome = false := by rw [hbd]; rfl
      have hden : helloDenied (getBoard (ensureBoardExists db boardId none
          now) boardId) (some s) = none := by
        rw [getBoard_ensure_of_none db boardId now hbd]
        simp [helloDenied]
      have hmain : getConnectionIdentity (handleHello db ps st ws boardId
          (some s) clientId displayName isAnonymous resume uuid fresh
          now).presence ws =
          some { userId := s, displayName := jsOrStr displayName fresh,
                 isAnonymous := false,
                 avatarColor := some (generateAvatarColor s) } := by
        simp only [handleHello, hsome, Bool.false_eq_true, if_false, hden]
        rw [hproceed, hident]
      exact ⟨_, hmain, rfl, rfl, rfl, generateAvatarColor_mem_COLORS s⟩
  | some bd =>
      have hsome : (getBoard db boardId).isSome = true := by rw [hbd]; rfl
      have hden : helloDenied (getBoard db boardId) (some s) = none := by
        rw [hbd]
        unfold helloDenied
        by_cases hpriv : bd.isPrivate
        · simp [hpriv, ht, hacc bd hbd hpriv]
        · simp [hpriv]
      have hmain : getConnectionIdentity (handleHello db ps st ws boardId
          (some s) clientId displayName isAnonymous resume uuid fresh
          now).presence ws =
          some { userId := s, displayName := jsOrStr displayName fresh,
                 isAnonymous := false,
                 avatarColor := some (generateAvatarColor s) } := by
        simp only [handleHello, hsome, if_true, hden]
        rw [hproceed, hident]
      exact ⟨_, hmain, rfl, rfl, rfl, generateAvatarColor_mem_COLORS s⟩

/-- C10 witness: a verified subject joining the private board it owns,
with a conflicting client-supplied `clientId` and `isAnonymous`. -/
theorem helloVerifiedIdentity_witness :
    ∃ ident,
      getConnectionIdentity (handleHello privDb PresenceSt.initial [] 7
        "p" (some "u1") (some "someOtherClientId") none true none "uuid"
        "anon" 99).presence 7 = some ident ∧
      ident.userId = "u1" ∧
      ident.isAnonymous = false ∧
      ident.avatarColor = some (generateAvatarColor "u1") ∧
      generateAvatarColor "u1" ∈ COLORS :=
  helloVerifiedIdentity privDb PresenceSt.initial [] 7 "p" "u1"
    (some "someOtherClientId") none true none "uuid" "anon" 99
    (by decide)
    (fun bd hbd _ => by
      rw [show bd = privBoard from by
        simpa [privDb, getBoard, JsMap.get, privBoard] using hbd.symm]
      rfl)

/-! ### C8: rate-limit budget -/

/-- C8: in any 1000 ms window, a connection gets at most
`capacity + rate` messages through the limiter — `30 + 60` for the draw
class and `60 + 120` for the cursor class — starting from any bucket
state with nonnegative tokens (the initial bucket is full at capacity);
and a rate-limited `DRAW_EVENT` is dropped with no reply and no
fan-out. -/
theorem rateLimiter_budget (bucket : Bucket) (htok : 0 ≤ bucket.tokens)
    (s : ℚ) (hlast : bucket.lastRefill ≤ s) (ts : List ℚ)
    (hch : List.Chain (· ≤ ·) bucket.lastRefill ts)
    (hwin : ∀ t ∈ ts, s ≤ t ∧ t ≤ s + 1000) :
    admittedCount bucket DRAW_REFILL_RATE DRAW_BUCKET_SIZE ts ≤ 30 + 60 ∧
    admittedCount bucket CURSOR_REFILL_RATE CURSOR_BUCKET_SIZE ts ≤ 60 + 120 ∧
    (∀ db ps st b now ws ty p tms dbOk,
      (tryConsume (getBucket b now DRAW_BUCKET_SIZE) now DRAW_REFILL_RATE
        DRAW_BUCKET_SIZE).2 = false →
      (handleDrawEvent db ps st b now ws ty p tms dbOk).toCaller = [] ∧
      (handleDrawEvent db ps st b now ws ty p tms dbOk).toAll = []) := by
  refine ⟨?_, ?_, ?_⟩
  · have h := admittedCount_window DRAW_REFILL_RATE DRAW_BUCKET_SIZE
      (by norm_num [DRAW_REFILL_RATE]) (by norm_num [DRAW_BUCKET_SIZE])
      bucket htok s hlast ts hch hwin
    have h2 : (admittedCount bucket DRAW_REFILL_RATE DRAW_BUCKET_SIZE ts : ℚ) ≤
        30 + 60 := by
      simpa [DRAW_BUCKET_SIZE, DRAW_REFILL_RATE] using h
    exact_mod_cast h2
  · have h := admittedCount_window CURSOR_REFILL_RATE CURSOR_BUCKET_SIZE
      (by norm_num [CURSOR_REFILL_RATE]) (by norm_num [CURSOR_BUCKET_SIZE])
      bucket htok s hlast ts hch hwin
    have h2 : (admittedCount bucket CURSOR_REFILL_RATE CURSOR_BUCKET_SIZE ts : ℚ) ≤
        60 + 120 := by
      simpa [CURSOR_BUCKET_SIZE, CURSOR_REFILL_RATE] using h
    exact_mod_cast h2
  · intro db ps st b now ws ty p tms dbOk hdrop
    rcases hc : tryConsume (getBucket b now DRAW_BUCKET_SIZE) now
        DRAW_REFILL_RATE DRAW_BUCKET_SIZE with ⟨b1, allowed⟩
    rw [hc] at hdrop
    subst hdrop
    simp only [handleDrawEvent, hc, Bool.not_false, if_true]
    exact ⟨rfl, rfl⟩

/-- C8 witness: a full draw bucket at time 0 with 100 calls at time 0
stays within budget, and an empty-bucket drop is silent. -/
theorem rateLimiter_budget_witness :
    admittedCount { tokens := 30, lastRefill := 0 } DRAW_REFILL_RATE
      DRAW_BUCKET_SIZE (List.replicate 100 0) ≤ 30 + 60 ∧
    (handleDrawEvent emptyDb PresenceSt.initial []
      (some { tokens := 0, lastRefill := 0 }) 0 7 .clear .clear 0
      true).toCaller = [] := by
  have h := rateLimiter_budget { tokens := 30, lastRefill := 0 }
    (by norm_num) 0 (by norm_num) (List.replicate 100 0)
    (List.chain_replicate_of_rel 100 (le_refl 0))
    (fun t ht => by
      rw [List.eq_of_mem_replicate ht]
      norm_num)
  refine ⟨h.1, ?_⟩
  exact (h.2.2 emptyDb PresenceSt.initial []
    (some { tokens := 0, lastRefill := 0 }) 0 7 .clear .clear 0 true
    (by norm_num [tryConsume, refillBucket, getBucket, DRAW_BUCKET_SIZE,
      DRAW_REFILL_RATE])).1

/-! ### C3: sync delivery policy -/

theorem sortBySeq_perm (l : List DrawEvent) : (sortBySeq l).Perm l :=
  List.perm_insertionSort _ l

theorem sortBySeq_sorted (l : List DrawEvent) :
    (sortBySeq l).Pairwise (fun a b => a.seq ≤ b.seq) :=
  List.sorted_insertionSort _ l

/-- `ensureBoardExists` only touches the board catalog. -/
theorem ensure_events (db : Db) (b : String) (n : Option String) (t : ℕ) :
    (ensureBoardExists db b n t).events = db.events := by
  unfold ensureBoardExists
  split <;> rfl

/-- `ensureBoardExists` leaves the snapshot table unchanged. -/
theorem ensure_snapshots (db : Db) (b : String) (n : Option String) (t : ℕ) :
    (ensureBoardExists db b n t).snapshots = db.snapshots := by
  unfold ensureBoardExists
  split <;> rfl

/-- The sync payload events are always sorted by `seq`. -/
theorem helloSyncPayload_sorted (db : Db) (b : String) (r : Option ℕ) :
    (helloSyncPayload db b r).1.Pairwise (fun a b => a.seq ≤ b.seq) := by
  unfold helloSyncPayload helloFullSync
  rcases r with _ | r
  · rcases getSnapshot db b with _ | sn <;>
      simp [getEvents, getEventsAfterSnapshot, sortBySeq_sorted]
  · by_cases h : 0 < r
    · simp [h, getEventsFromSeq, sortBySeq_sorted]
    · rcases getSnapshot db b with _ | sn <;>
        simp [h, getEvents, getEventsAfterSnapshot, sortBySeq_sorted]

/-- C3: on a HELLO that is not denied (public or freshly created board),
the second message to the caller is a `SYNC_SNAPSHOT` whose `lastSeq` is
`maxSeq(boardId)` and whose contents follow the delta / snapshot / full
policy: for `resumeFromSeq = r > 0` it is a delta — exactly the stored
events with `seq > r`, ascending, no snapshot; otherwise, with a stored
snapshot it carries the snapshot `(image, seq, offsets)` plus exactly
the events with `seq > snapshot.seq`; otherwise all the board's events
and no snapshot. -/
theorem helloSyncContract (db : Db) (ps : PresenceSt) (st : SeqSt)
    (ws : ConnId) (boardId : String) (sub : Option String)
    (clientId displayName : Option String) (isAnonymous : Bool)
    (resume : Option ℕ) (uuid fresh : String) (now : ℕ)
    (hpub : ∀ bd, getBoard db boardId = some bd → bd.isPrivate = false) :
    ∃ w ul events snap,
      (handleHello db ps st ws boardId sub clientId displayName
          isAnonymous resume uuid fresh now).toCaller =
        [w, .syncSnapshot boardId events (getMaxSeq db boardId)
          (helloIsDelta resume) snap, ul] ∧
      events.Pairwise (fun a b => a.seq ≤ b.seq) ∧
      (∀ r, resume = some r → 0 < r →
        helloIsDelta resume = true ∧ snap = none ∧
        events.Perm (db.events.filter
          (fun e => e.boardId == boardId && decide (r < e.seq)))) ∧
      (helloIsDelta resume = false →
        (∀ sn, getSnapshot db boardId = some sn →
          snap = some { imageData := sn.imageData, seq := sn.seq,
                        offsetX := sn.offsetX, offsetY := sn.offsetY } ∧
          events.Perm (db.events.filter
            (fun e => e.boardId == boardId && decide (sn.seq < e.seq)))) ∧
        (getSnapshot db boardId = none →
          snap = none ∧
          events.Perm (db.events.filter
            (fun e => e.boardId == boardId)))) := by
  -- the database reaching the sync code: unchanged or extended by a
  -- public board; its event log and snapshot table match `db`
  set db' := if (getBoard db boardId).isSome then db
    else ensureBoardExists db boardId none now with hdb'
  have hev : db'.events = db.events := by
    rw [hdb']; split
    · rfl
    · exact ensure_events db boardId none now
  have hsnap : db'.snapshots = db.snapshots := by
    rw [hdb']; split
    · rfl
    · exact ensure_snapshots db boardId none now
  have hmax : getMaxSeq db' boardId = getMaxSeq db boardId := by
    unfold getMaxSeq; rw [hev]
  have hgetsnap : getSnapshot db' boardId = getSnapshot db boardId := by
    unfold getSnapshot; rw [hsnap]
  have hden : helloDenied (getBoard db' boardId) sub = none := by
    rw [hdb']
    cases hbd : getBoard db boardId with
    | some bd =>
        simp only [hbd, Option.isSome_some, if_true, hbd, helloDenied,
          hpub bd hbd, Bool.false_eq_true, if_false]
    | none =>
        simp only [hbd, Option.isSome_none, Bool.false_eq_true, if_false]
        rw [getBoard_ensure_of_none db boardId now hbd]
        simp [helloDenied]
  have hout : handleHello db ps st ws boardId sub clientId displayName
      isAnonymous resume uuid fresh now =
      helloProceed db' ps st ws boardId sub clientId displayName
        isAnonymous resume uuid fresh now := by
    simp only [handleHello, ← hdb', hden]
  rw [hout]
  obtain ⟨w, ul, hcall⟩ : ∃ w ul,
      (helloProceed db' ps st ws boardId sub clientId displayName
        isAnonymous resume uuid fresh now).toCaller =
      [w, .syncSnapshot boardId (helloSyncPayload db' boardId resume).1
        (getMaxSeq db' boardId) (helloIsDelta resume)
        (helloSyncPayload db' boardId resume).2, ul] := ⟨_, _, rfl⟩
  rw [hmax] at hcall
  refine ⟨w, ul, (helloSyncPayload db' boardId resume).1,
    (helloSyncPayload db' boardId resume).2, hcall, ?_, ?_, ?_⟩
  · exact helloSyncPayload_sorted db' boardId resume
  · rintro r rfl hr
    refine ⟨by simp [helloIsDelta, hr], ?_, ?_⟩
    · simp [helloSyncPayload, hr]
    · simp only [helloSyncPayload, hr, if_true]
      unfold getEventsFromSeq
      rw [hev]
      exact sortBySeq_perm _
  · intro hnd
    constructor
    · intro sn hsn
      have hsn' : getSnapshot db' boardId = some sn := by rw [hgetsnap, hsn]
      have harm : helloSyncPayload db' boardId resume =
          helloFullSync db' boardId := by
        unfold helloSyncPayload
        rcases resume with _ | r
        · rfl
        · rcases Nat.eq_zero_or_pos r with h0 | h0
          · simp [h0]
          · simp [helloIsDelta, h0, Nat.pos_iff_ne_zero.mp h0] at hnd
      rw [harm]
      unfold helloFullSync
      rw [hsn']
      refine ⟨rfl, ?_⟩
      unfold getEventsAfterSnapshot
      rw [hev]
      exact sortBySeq_perm _
    · intro hsn
      have hsn' : getSnapshot db' boardId = none := by rw [hgetsnap, hsn]
      have harm : helloSyncPayload db' boardId resume =
          helloFullSync db' boardId := by
        unfold helloSyncPayload
        rcases resume with _ | r
        · rfl
        · rcases Nat.eq_zero_or_pos r with h0 | h0
          · simp [h0]
          · simp [helloIsDelta, h0, Nat.pos_iff_ne_zero.mp h0] at hnd
      rw [harm]
      unfold helloFullSync
      rw [hsn']
      refine ⟨rfl, ?_⟩
      unfold getEvents
      rw [hev]
      exact sortBySeq_perm _

/-- C3 witness: a delta resume from seq 3 on a five-event board. -/
theorem helloSyncContract_witness :
    ∃ w ul events snap,
      (handleHello db5 PresenceSt.initial [] 7 "b" none none none true
          (some 3) "uuid" "anon" 99).toCaller =
        [w, .syncSnapshot "b" events (getMaxSeq db5 "b")
          (helloIsDelta (some 3)) snap, ul] ∧
      snap = none ∧
      events.Perm (db5.events.filter
        (fun e => e.boardId == "b" && decide (3 < e.seq))) := by
  obtain ⟨w, ul, events, snap, hcall, hsort, hdelta, hfull⟩ :=
    helloSyncContract db5 PresenceSt.initial [] 7 "b" none none none true
      (some 3) "uuid" "anon" 99
      (fun bd hbd => by
        rw [show bd = pubBoard from by
          simpa [db5, getBoard, JsMap.get, pubBoard] using hbd.symm]
        rfl)
  obtain ⟨hd1, hd2, hd3⟩ := hdelta 3 rfl (by norm_num)
  exact ⟨w, ul, events, snap, hcall, hd2, hd3⟩

/-! ### C7: cursor batching -/

/-- Unfolding `lastQueued` one call at a time: a later call wins. -/
theorem lastQueued_cons (q : QueuedCursor) (qs : List QueuedCursor)
    (b u : String) :
    lastQueued (q :: qs) b u =
      (lastQueued qs b u).or
        (if q.boardId == b && q.userId == u then some q else none) := by
  unfold lastQueued
  rw [List.reverse_cons, List.find?_append]
  congr 1
  simp only [List.find?]
  cases h : (q.boardId == b && q.userId == u) <;> simp [h]

/-- The coalesced slot for `(b, u)` after a tick of queued calls holds
the data of the last call for that pair (and is untouched otherwise). -/
theorem queueAll_get (calls : List QueuedCursor) :
    ∀ (cb : CursorBatches) (b u : String),
      JsMap.get ((JsMap.get (queueAll cb calls) b).getD JsMap.empty) u =
        match lastQueued calls b u with
        | some q => some (cdOf q)
        | none => JsMap.get ((JsMap.get cb b).getD JsMap.empty) u := by
  induction calls with
  | nil => intro cb b u; simp [queueAll, lastQueued]
  | cons q qs ih =>
      intro cb b u
      simp only [queueAll]
      rw [ih, lastQueued_cons]
      cases hlast : lastQueued qs b u with
      | some x => simp
      | none =>
          simp only [Option.or, Option.none_or]
          by_cases hb : q.boardId = b
          · subst hb
            by_cases hu : q.userId = u
            · subst hu
              simp only [beq_self_eq_true, Bool.and_self, if_pos]
              simp only [queueCursorUpdate, JsMap.get_set_self,
                Option.getD_some, cdOf]
            · have : (q.boardId == q.boardId && q.userId == u) = false := by
                simp [hu]
              simp only [this, Bool.false_eq_true, if_false]
              simp only [queueCursorUpdate, JsMap.get_set_self,
                Option.getD_some]
              rw [JsMap.get_set_ne _ _ _ _ hu]
          · have : (q.boardId == b && q.userId == u) = false := by
              simp [hb]
            simp only [this, Bool.false_eq_true, if_false]
            simp only [queueCursorUpdate]
            rw [JsMap.get_set_ne _ _ _ _ hb]

/-- `queueCursorUpdate` preserves well-formedness. -/
theorem CbWF_queue (cb : CursorBatches) (q : QueuedCursor)
    (hwf : CbWF cb) :
    CbWF (queueCursorUpdate cb q.boardId q.userId q.displayName
      q.avatarColor q.x q.y) := by
  obtain ⟨hknd, hinner⟩ := hwf
  have hinner' :
      ∀ p ∈ (JsMap.get cb q.boardId).getD JsMap.empty,
        (p.2).userId = p.1 := by
    cases hg : JsMap.get cb q.boardId with
    | none => intro p hp; simp [JsMap.empty] at hp
    | some m =>
        intro p hp
        exact (hinner (q.boardId, m) (JsMap.mem_of_get _ _ _ hg)).2 p hp
  have hknd' : (JsMap.keys ((JsMap.get cb q.boardId).getD
      JsMap.empty)).Nodup := by
    cases hg : JsMap.get cb q.boardId with
    | none => simp [JsMap.empty, JsMap.keys]
    | some m => exact (hinner (q.boardId, m) (JsMap.mem_of_get _ _ _ hg)).1
  constructor
  · unfold queueCursorUpdate
    cases hg : JsMap.get cb q.boardId with
    | none =>
        rw [JsMap.keys_set_of_not_mem _ _ _ hg, List.nodup_append]
        refine ⟨hknd, List.nodup_singleton _, ?_⟩
        intro a ha hb
        simp only [List.mem_singleton] at hb
        subst hb
        exact JsMap.not_mem_keys_of_get_none cb q.boardId hg ha
    | some m =>
        rw [JsMap.keys_set_of_mem _ _ _ (by rw [hg]; rfl)]
        exact hknd
  · intro p hp
    rcases JsMap.mem_set _ _ _ p hp with hmem | hnew
    · exact hinner p hmem
    · subst hnew
      constructor
      · cases hg : JsMap.get
            ((JsMap.get cb q.boardId).getD JsMap.empty) q.userId with
        | none =>
            rw [JsMap.keys_set_of_not_mem _ _ _ hg, List.nodup_append]
            refine ⟨hknd', List.nodup_singleton _, ?_⟩
            intro a ha hb
            simp only [List.mem_singleton] at hb
            subst hb
            exact JsMap.not_mem_keys_of_get_none _ _ hg ha
        | some v =>
            rw [JsMap.keys_set_of_mem _ _ _ (by rw [hg]; rfl)]
            exact hknd'
      · intro r hr
        rcases JsMap.mem_set _ _ _ r hr with hmem | hnew
        · exact hinner' r hmem
        · subst hnew; rfl

/-- `queueAll` preserves well-formedness. -/
theorem CbWF_queueAll (calls : List QueuedCursor) :
    ∀ cb : CursorBatches, CbWF cb → CbWF (queueAll cb calls) := by
  induction calls with
  | nil => intro cb h; exact h
  | cons q qs ih =>
      intro cb h
      exact ih _ (CbWF_queue cb q h)

/-- The batches emitted by a flush, as a sublist of the board keys. -/
theorem flush_fst_sublist (cb : CursorBatches) :
    ((flushCursorBatches cb).1.map Prod.fst).Sublist (JsMap.keys cb) := by
  induction cb with
  | nil => simp [flushCursorBatches]
  | cons p rest ih =>
      obtain ⟨b, cursors⟩ := p
      simp only [flushCursorBatches]
      rcases hf : flushCursorBatches rest with ⟨out, rest'⟩
      by_cases hs : 0 < JsMap.size cursors
      · simp only [hs, if_pos, List.map_cons]
        exact List.Sublist.cons₂ b (by simpa [hf] using ih)
      · simp only [hs, if_neg, JsMap.keys, List.map_cons]
        exact List.Sublist.cons b (by simpa [hf, JsMap.keys] using ih)

/-- Every emitted batch is the value list of a pending board buffer. -/
theorem flush_out_mem (cb : CursorBatches) (b : String)
    (cursors : List CursorData)
    (h : (b, cursors) ∈ (flushCursorBatches cb).1) :
    ∃ m, (b, m) ∈ cb ∧ cursors = JsMap.values m ∧ 0 < JsMap.size m := by
  induction cb with
  | nil => simp [flushCursorBatches] at h
  | cons p rest ih =>
      obtain ⟨b₀, cursors₀⟩ := p
      simp only [flushCursorBatches] at h
      rcases hf : flushCursorBatches rest with ⟨out, rest'⟩
      rw [hf] at h
      by_cases hs : 0 < JsMap.size cursors₀
      · simp only [hs, if_pos, List.mem_cons] at h
        rcases h with h | h
        · obtain ⟨h1, h2⟩ := Prod.ext_iff.mp h
          subst h1
          exact ⟨cursors₀, List.mem_cons_self _ _, h2, hs⟩
        · obtain ⟨m, hm, hv, hsz⟩ := ih (by rw [hf]; exact h)
          exact ⟨m, List.mem_cons_of_mem _ hm, hv, hsz⟩
      · simp only [hs, if_neg] at h
        obtain ⟨m, hm, hv, hsz⟩ := ih (by rw [hf]; exact h)
        exact ⟨m, List.mem_cons_of_mem _ hm, hv, hsz⟩

/-- Every pending board buffer produces its batch. -/
theorem flush_out_complete (cb : CursorBatches) (b : String)
    (m : JsMap String CursorData) (hm : (b, m) ∈ cb)
    (hsz : 0 < JsMap.size m) :
    (b, JsMap.values m) ∈ (flushCursorBatches cb).1 := by
  induction cb with
  | nil => simp at hm
  | cons p rest ih =>
      obtain ⟨b₀, cursors₀⟩ := p
      simp only [flushCursorBatches]
      rcases hf : flushCursorBatches rest with ⟨out, rest'⟩
      rcases List.mem_cons.mp hm with h | h
      · obtain ⟨h1, h2⟩ := Prod.ext_iff.mp h
        subst h1
        subst h2
        simp only [hsz, if_pos]
        exact List.mem_cons_self _ _
      · by_cases hs : 0 < JsMap.size cursors₀
        · simp only [hs, if_pos]
          have := ih h
          rw [hf] at this
          exact List.mem_cons_of_mem _ this
        · simp only [hs, if_neg]
          have := ih h
          rw [hf] at this
          exact this

/-- After a flush every buffer is empty. -/
theorem flush_clears (cb : CursorBatches) :
    ∀ p ∈ (flushCursorBatches cb).2, p.2 = ([] : JsMap String CursorData) := by
  induction cb with
  | nil => intro p hp; simp [flushCursorBatches] at hp
  | cons hd rest ih =>
      obtain ⟨b₀, cursors₀⟩ := hd
      intro p hp
      simp only [flushCursorBatches] at hp
      rcases hf : flushCursorBatches rest with ⟨out, rest'⟩
      rw [hf] at hp
      by_cases hs : 0 < JsMap.size cursors₀
      · rw [if_pos hs] at hp
        rcases List.mem_cons.mp hp with hp | hp
        · subst hp; rfl
        · exact ih p (by rw [hf]; exact hp)
      · rw [if_neg hs] at hp
        rcases List.mem_cons.mp hp with hp | hp
        · subst hp
          have h0 : JsMap.size cursors₀ = 0 := by omega
          exact List.length_eq_zero.mp h0
        · exact ih p (by rw [hf]; exact hp)

/-- C7: starting a tick with clean buffers, after any sequence of
`queueCursorUpdate` calls one flush emits at most one batch per board;
each batch has exactly one entry per user, holding the data of that
user's last queued call (in particular the last submitted `(x, y)`);
every queued user appears in their board's batch; and all buffers are
cleared. -/
theorem cursorBatch_coalesce (cb : CursorBatches) (calls : List QueuedCursor)
    (hclean : ∀ p ∈ cb, p.2 = ([] : JsMap String CursorData))
    (hnd : (JsMap.keys cb).Nodup) :
    (((flushCursorBatches (queueAll cb calls)).1.map Prod.fst).Nodup) ∧
    (∀ b cursors,
      (b, cursors) ∈ (flushCursorBatches (queueAll cb calls)).1 →
      (cursors.map CursorData.userId).Nodup ∧
      ∀ c ∈ cursors, ∃ q, lastQueued calls b c.userId = some q ∧
        q ∈ calls ∧ q.boardId = b ∧ q.userId = c.userId ∧ c = cdOf q) ∧
    (∀ q ∈ calls, ∃ cursors,
      (q.boardId, cursors) ∈ (flushCursorBatches (queueAll cb calls)).1 ∧
      ∃ c ∈ cursors, c.userId = q.userId) ∧
    (∀ p ∈ (flushCursorBatches (queueAll cb calls)).2,
      p.2 = ([] : JsMap String CursorData)) := by
  have hwf : CbWF cb := by
    refine ⟨hnd, fun p hp => ?_⟩
    rw [hclean p hp]
    exact ⟨by simp [JsMap.keys], by simp⟩
  have hwf' : CbWF (queueAll cb calls) := CbWF_queueAll calls cb hwf
  have hcb_inner_none : ∀ b u,
      JsMap.get ((JsMap.get cb b).getD JsMap.empty) u = none := by
    intro b u
    cases hg : JsMap.get cb b with
    | none => rfl
    | some m =>
        rw [Option.getD_some,
          show m = [] from hclean (b, m) (JsMap.mem_of_get _ _ _ hg)]
        rfl
  have hslot : ∀ b u,
      JsMap.get ((JsMap.get (queueAll cb calls) b).getD JsMap.empty) u =
        match lastQueued calls b u with
        | some q => some (cdOf q)
        | none => none := by
    intro b u
    rw [queueAll_get calls cb b u]
    cases lastQueued calls b u with
    | some q => rfl
    | none => exact hcb_inner_none b u
  refine ⟨?_, ?_, ?_, flush_clears _⟩
  · exact (flush_fst_sublist _).nodup hwf'.1
  · intro b cursors hmem
    obtain ⟨m, hm, hv, hsz⟩ := flush_out_mem _ b cursors hmem
    obtain ⟨hmnd, hmkey⟩ := hwf'.2 (b, m) hm
    have hgetm : JsMap.get (queueAll cb calls) b = some m :=
      JsMap.get_of_mem_nodup _ b m hwf'.1 hm
    constructor
    · rw [hv]
      have : (JsMap.values m).map CursorData.userId = JsMap.keys m := by
        unfold JsMap.values JsMap.keys
        rw [List.map_map]
        exact List.map_congr_left (fun p hp => hmkey p hp)
      rw [this]
      exact hmnd
    · intro c hc
      rw [hv] at hc
      obtain ⟨p, hpm, hpc⟩ := List.mem_map.mp hc
      obtain ⟨k, v⟩ := p
      cases hpc
      have hkey : v.userId = k := hmkey (k, v) hpm
      have hget : JsMap.get m v.userId = some v := by
        rw [hkey]
        exact JsMap.get_of_mem_nodup m k v hmnd hpm
      have := hslot b v.userId
      rw [hgetm, Option.getD_some, hget] at this
      cases hlq : lastQueued calls b v.userId with
      | none => rw [hlq] at this; cases this
      | some q =>
          rw [hlq] at this
          have hv_eq : v = cdOf q := by
            injection this
          have hqmem : q ∈ calls := by
            have := List.mem_of_find?_eq_some hlq
            exact List.mem_reverse.mp this
          have hqpred := List.find?_some hlq
          simp only [Bool.and_eq_true, beq_iff_eq] at hqpred
          exact ⟨q, rfl, hqmem, hqpred.1, hqpred.2, hv_eq⟩
  · intro q hq
    have hfind : (lastQueued calls q.boardId q.userId).isSome := by
      unfold lastQueued
      exact List.find?_isSome.mpr
        ⟨q, List.mem_reverse.mpr hq, by simp⟩
    obtain ⟨q', hlq⟩ := Option.isSome_iff_exists.mp hfind
    have hslotq := hslot q.boardId q.userId
    rw [hlq] at hslotq
    cases hgetm : JsMap.get (queueAll cb calls) q.boardId with
    | none => rw [hgetm] at hslotq; cases hslotq
    | some m =>
        rw [hgetm, Option.getD_some] at hslotq
        have hmm : (q.boardId, m) ∈ queueAll cb calls :=
          JsMap.mem_of_get _ _ _ hgetm
        have hmemm : (q.userId, cdOf q') ∈ m :=
          JsMap.mem_of_get _ _ _ hslotq
        have hszm : 0 < JsMap.size m := by
          cases m with
          | nil => simp [JsMap.get] at hslotq
          | cons a l => simp [JsMap.size]
        refine ⟨JsMap.values m, flush_out_complete _ _ _ hmm hszm,
          cdOf q', ?_, ?_⟩
        · exact List.mem_map.mpr ⟨(q.userId, cdOf q'), hmemm, rfl⟩
        · have hqpred := List.find?_some hlq
          simp only [Bool.and_eq_true, beq_iff_eq] at hqpred
          simp [cdOf, hqpred.2]

/-- C7 witness: two moves of one user in a tick produce a single batch
entry for that user. -/
theorem cursorBatch_coalesce_witness :
    ∃ cursors,
      ("b", cursors) ∈ (flushCursorBatches (queueAll []
        [⟨"b", "u", "U", none, 1, 2⟩, ⟨"b", "u", "U", none, 3, 4⟩])).1 ∧
      ∃ c ∈ cursors, c.userId = "u" := by
  have h := cursorBatch_coalesce []
    [⟨"b", "u", "U", none, 1, 2⟩, ⟨"b", "u", "U", none, 3, 4⟩]
    (by simp) (by simp [JsMap.keys])
  exact h.2.2.1 ⟨"b", "u", "U", none, 1, 2⟩ (by simp)

/-! ### C1: the sequencer log invariant -/

/-- Appending one row extends a board's `seq` list by that row's `seq`
(other boards unchanged). -/
theorem seqsOf_append_event (db : Db) (ev : DrawEvent) (b : String) :
    seqsOf { db with events := db.events ++ [ev] } b =
      seqsOf db b ++ (if ev.boardId == b then [ev.seq] else []) := by
  unfold seqsOf
  rw [List.filter_append]
  cases h : (ev.boardId == b) <;> simp [List.filter, h]

/-- Appending one row pushes `MAX(seq)` to `max` with that row. -/
theorem getMaxSeq_append_event (db : Db) (ev : DrawEvent) (b : String) :
    getMaxSeq { db with events := db.events ++ [ev] } b =
      if ev.boardId == b then max (getMaxSeq db b) ev.seq
      else getMaxSeq db b := by
  unfold getMaxSeq
  rw [List.filter_append]
  cases h : (ev.boardId == b) <;>
    simp [List.filter, h, List.foldl_append]

/-- Under the log invariant, a `seq` is persisted iff it lies in
`[1, maxSeq]`. -/
theorem SeqWF_mem (db : Db) (b : String) (h : SeqWF db b) (n : ℕ) :
    n ∈ seqsOf db b ↔ 1 ≤ n ∧ n < getMaxSeq db b + 1 := by
  have hmem : n ∈ (seqsOf db b : Multiset ℕ) ↔
      n ∈ ((List.range' 1 (getMaxSeq db b)) : Multiset ℕ) := by rw [h]
  simp only [Multiset.mem_coe, List.mem_range'_1] at hmem
  rw [hmem]
  omega

/-- With no `(boardId, seq)` collision the `INSERT` succeeds. -/
theorem appendEvent_ok (db : Db) (ev : DrawEvent)
    (h : ¬ ∃ e ∈ db.events,
      (e.boardId == ev.boardId && e.seq == ev.seq) = true) :
    appendEvent db ev = .ok { db with events := db.events ++ [ev] } := by
  unfold appendEvent
  rw [if_neg]
  simpa [List.any_eq_true] using h

/-- A consistent counter reads `maxSeq + 1` right after initialization. -/
theorem initBoardSequence_get (db : Db) (st : SeqSt) (b : String)
    (hcst : CounterConsistent db st) :
    JsMap.get (initBoardSequence db st b) b =
      some (getMaxSeq db b + 1) := by
  unfold initBoardSequence
  cases hh : JsMap.hasKey st b
  · simp only [hh, Bool.false_eq_true, if_false]
    rw [JsMap.get_set_self]
  · simp only [hh, if_true]
    unfold JsMap.hasKey at hh
    obtain ⟨n, hn⟩ := Option.isSome_iff_exists.mp hh
    rw [hn, hcst b n hn]

/-- Initializing one board's counter leaves the others unchanged. -/
theorem initBoardSequence_get_ne (db : Db) (st : SeqSt) (b b' : String)
    (hne : b ≠ b') :
    JsMap.get (initBoardSequence db st b) b' = JsMap.get st b' := by
  unfold initBoardSequence
  cases hh : JsMap.hasKey st b
  · simp only [hh, Bool.false_eq_true, if_false]
    exact JsMap.get_set_ne _ _ _ _ hne
  · rfl

/-- One successful `sequenceEvent` call under the invariants: the
reserved `seq` is `maxSeq + 1`, the counter moves to `maxSeq + 2`, and
the append succeeds. -/
theorem sequenceEvent_ok_step (db : Db) (st : SeqSt) (b u : String)
    (ty : DrawEventType) (p : DrawEventPayload) (ts : ℕ)
    (hwf : ∀ b', SeqWF db b') (hcst : CounterConsistent db st) :
    sequenceEvent db st b u ty p ts true =
      (JsMap.set (initBoardSequence db st b) b (getMaxSeq db b + 1 + 1),
       .ok ({ db with events := db.events ++
           [{ boardId := b, seq := getMaxSeq db b + 1, type := ty,
              userId := u, timestamp := ts, payload := p }] },
         { boardId := b, seq := getMaxSeq db b + 1, type := ty,
           userId := u, timestamp := ts, payload := p })) := by
  have hnocol : ¬ ∃ e ∈ db.events,
      (e.boardId == b && e.seq == (getMaxSeq db b + 1)) = true := by
    rintro ⟨e, hemem, hcol⟩
    simp only [Bool.and_eq_true, beq_iff_eq] at hcol
    have : e.seq ∈ seqsOf db b := by
      unfold seqsOf
      exact List.mem_map_of_mem DrawEvent.seq
        (List.mem_filter.mpr ⟨hemem, by simp [hcol.1]⟩)
    rw [SeqWF_mem db b (hwf b)] at this
    omega
  have happ := appendEvent_ok db
    { boardId := b, seq := getMaxSeq db b + 1, type := ty, userId := u,
      timestamp := ts, payload := p } hnocol
  simp only [sequenceEvent, initBoardSequence_get db st b hcst,
    Option.getD_some, if_true, happ]

/-- Reduction helpers for decidable `Bool`-literal conditions. -/
theorem ite_tt {α : Type} (a b : α) : (if true = true then a else b) = a := rfl

theorem ite_ff {α : Type} (a b : α) : (if false = true then a else b) = b := rfl

/-- `okSeqsFor` on a successful head result. -/
theorem okSeqsFor_cons_ok (ev : DrawEvent)
    (out : List (Except Unit DrawEvent)) (b : String) :
    okSeqsFor (.ok ev :: out) b =
      if ev.boardId == b then ev.seq :: okSeqsFor out b
      else okSeqsFor out b := by
  unfold okSeqsFor
  by_cases h : ev.boardId = b <;> simp [List.filterMap_cons, h]

/-- The main induction: a run of all-successful requests assigns, for
each board, the consecutive block of `seq` values following the initial
`maxSeq`, and preserves both invariants. -/
theorem runSeq_ok_spec : ∀ (reqs : List SeqReq) (db : Db) (st : SeqSt),
    (∀ r ∈ reqs, r.dbOk = true) →
    (∀ b, SeqWF db b) →
    CounterConsistent db st →
    (∀ b, okSeqsFor (runSeq db st reqs).2.2 b =
      List.range' (getMaxSeq db b + 1)
        (reqs.countP (fun r => r.boardId == b))) ∧
    (∀ b, SeqWF (runSeq db st reqs).1 b) ∧
    CounterConsistent (runSeq db st reqs).1 (runSeq db st reqs).2.1
| [], db, st, _, hwf, hcst => by
    refine ⟨fun b => ?_, fun b => hwf b, hcst⟩
    simp [runSeq, okSeqsFor]
| r :: rs, db, st, hok, hwf, hcst => by
    have hr : r.dbOk = true := hok r (List.mem_cons_self r rs)
    have hstep := sequenceEvent_ok_step db st r.boardId r.userId r.type
      r.payload r.timestamp hwf hcst
    set ev : DrawEvent :=
      { boardId := r.boardId, seq := getMaxSeq db r.boardId + 1,
        type := r.type, userId := r.userId, timestamp := r.timestamp,
        payload := r.payload } with hev
    set db' : Db := { db with events := db.events ++ [ev] } with hdb'
    set st' : SeqSt := JsMap.set (initBoardSequence db st r.boardId)
      r.boardId (getMaxSeq db r.boardId + 1 + 1) with hst'
    have hmax' : ∀ b, getMaxSeq db' b =
        if r.boardId == b then getMaxSeq db b + 1 else getMaxSeq db b := by
      intro b
      rw [hdb', getMaxSeq_append_event]
      by_cases h : r.boardId = b
      · subst h
        simp only [hev, beq_self_eq_true, if_true]
        omega
      · have hbe : (ev.boardId == b) = false := by simp [hev, h]
        rw [hbe, ite_ff, ite_ff]
    have hwf' : ∀ b, SeqWF db' b := by
      intro b
      unfold SeqWF
      rw [hdb', seqsOf_append_event, ← hdb', hmax' b]
      by_cases h : r.boardId = b
      · subst h
        have hbe : (ev.boardId == r.boardId) = true := by simp [hev]
        rw [hbe, ite_tt, ite_tt]
        have hwfb := hwf r.boardId
        unfold SeqWF at hwfb
        have hconcat : List.range' 1 (getMaxSeq db r.boardId + 1) =
            List.range' 1 (getMaxSeq db r.boardId) ++
              [getMaxSeq db r.boardId + 1] := by
          have h1 := @List.range'_concat 1 1 (getMaxSeq db r.boardId)
          simpa [Nat.add_comm] using h1
        rw [hconcat, hev]
        exact Multiset.coe_eq_coe.mpr
          ((Multiset.coe_eq_coe.mp hwfb).append_right _)
      · have hbe : (ev.boardId == b) = false := by simp [hev, h]
        rw [hbe, ite_ff, ite_ff, List.append_nil]
        exact hwf b
    have hcst' : CounterConsistent db' st' := by
      intro b n hget
      by_cases hb : r.boardId = b
      · subst hb
        rw [hst', JsMap.get_set_self] at hget
        cases hget
        rw [hmax' r.boardId]
        simp
      · rw [hst', JsMap.get_set_ne _ _ _ _ hb,
          initBoardSequence_get_ne db st _ _ hb] at hget
        rw [hmax' b]
        have hbe' : (r.boardId == b) = false := by simp [hb]
        rw [hbe', ite_ff]
        exact hcst b n hget
    have ih := runSeq_ok_spec rs db' st'
      (fun x hx => hok x (List.mem_cons_of_mem r hx)) hwf' hcst'
    have hrun : runSeq db st (r :: rs) =
        ((runSeq db' st' rs).1,
          (runSeq db' st' rs).2.1,
          .ok ev :: (runSeq db' st' rs).2.2) := by
      simp only [runSeq, hr, hstep]
    rw [hrun]
    refine ⟨fun b => ?_, ih.2.1, ih.2.2⟩
    rw [okSeqsFor_cons_ok]
    rw [ih.1 b, hmax' b]
    by_cases h : r.boardId = b
    · subst h
      have hbe : (ev.boardId == r.boardId) = true := by simp [hev]
      rw [hbe, ite_tt, ite_tt]
      rw [List.countP_cons]
      have hbe' : (r.boardId == r.boardId) = true := by simp
      rw [hbe', ite_tt]
      rw [List.range'_succ]
    · have hbe : (ev.boardId == b) = false := by simp [hev, h]
      rw [hbe, ite_ff, ite_ff]
      rw [List.countP_cons]
      have hbe' : (r.boardId == b) = false := by simp [h]
      rw [hbe', ite_ff]
      simp

/-- C1 counterexample: with a transient persistence failure in the
middle of a run ([ok, fail, ok] from an empty board), the persisted
`seq` multiset is `{1, 3}` while `maxSeq = 3`: the claimed invariant
multiset-of-seqs = `{1..maxSeq}` fails, because the failed call's
reserved `seq` is never reused. -/
theorem sequencer_invariant_counterexample :
    ¬ ((seqsOf (runSeq emptyDb JsMap.empty [rqOk, rqFail, rqOk]).1 "b" :
          Multiset ℕ) =
       (List.range' 1
          (getMaxSeq (runSeq emptyDb JsMap.empty [rqOk, rqFail, rqOk]).1
            "b") : Multiset ℕ)) := by
  decide

/-- C1 amended: provided every `appendEvent` succeeds, the sequencer
assigns each board the consecutive `seq` block starting at
`maxSeq + 1` (strictly increasing, no gaps, counter seeded from
`maxSeq + 1` on first use), and after every prefix of the run the
persisted multiset of `seq` values for each board is exactly
`{1..maxSeq}`. -/
theorem sequencer_consecutive (db : Db) (reqs : List SeqReq)
    (hok : ∀ r ∈ reqs, r.dbOk = true)
    (hwf : ∀ b, SeqWF db b) :
    (∀ b, okSeqsFor (runSeq db JsMap.empty reqs).2.2 b =
      List.range' (getMaxSeq db b + 1)
        (reqs.countP (fun r => r.boardId == b))) ∧
    (∀ n b, SeqWF (runSeq db JsMap.empty (reqs.take n)).1 b) := by
  have hcst : CounterConsistent db (JsMap.empty : SeqSt) := by
    intro b n h
    simp [JsMap.empty, JsMap.get] at h
  exact ⟨(runSeq_ok_spec reqs db JsMap.empty hok hwf hcst).1,
    fun n b => (runSeq_ok_spec (reqs.take n) db JsMap.empty
      (fun r hr => hok r (List.mem_of_mem_take hr)) hwf hcst).2.1 b⟩

/-- C1 witness: two successful draws on an empty board get seqs `[1, 2]`. -/
theorem sequencer_consecutive_witness :
    okSeqsFor (runSeq emptyDb JsMap.empty [rqOk, rqOk]).2.2 "b" =
      List.range' (getMaxSeq emptyDb "b" + 1)
        ([rqOk, rqOk].countP (fun r => r.boardId == "b")) :=
  (sequencer_consecutive emptyDb [rqOk, rqOk] (by decide)
    (fun b => rfl)).1 "b"


/-! ### C6: the snapshot renderer (`renderEventsToSnapshot`) -/

/-- `bbJoin` never yields `none`. -/
theorem bbJoin_ne_none (acc : Option BoundingBox) (nb : BoundingBox) :
    bbJoin acc nb ≠ none := by
  cases acc <;> simp [bbJoin]

/-- Folding `bbJoin` over a point list is `none` exactly when the
accumulator was `none` and the list empty. -/
theorem foldl_bbJoin_none (g : ℚ × ℚ → BoundingBox) :
    ∀ (points : List (ℚ × ℚ)) (acc : Option BoundingBox),
      points.foldl (fun a pt => bbJoin a (g pt)) acc = none ↔
        acc = none ∧ points = [] := by
  intro points
  induction points with
  | nil => intro acc; simp
  | cons pt rest ih =>
      intro acc
      rw [List.foldl_cons, ih]
      constructor
      · rintro ⟨h1, -⟩
        exact absurd h1 (bbJoin_ne_none acc (g pt))
      · rintro ⟨-, h2⟩
        exact absurd h2 (List.cons_ne_nil pt rest)

/-- One `boundsStep` yields `none` exactly when the accumulator was
`none` and the event has no renderable extent. -/
theorem boundsStep_none (dels : List String) (acc : Option BoundingBox)
    (e : DrawEvent) :
    boundsStep dels acc e = none ↔
      acc = none ∧ hasExtent dels e = false := by
  obtain ⟨bid, sq, ty, uid, ts, pl⟩ := e
  cases ty <;> cases pl
  case stroke.stroke p =>
    simp only [boundsStep, hasExtent]
    cases h : dels.contains p.strokeId
    · simp [h, foldl_bbJoin_none, List.isEmpty_iff]
    · simp [h]
  case shape.shape p =>
    simp only [boundsStep, hasExtent]
    cases h : dels.contains p.strokeId
    · cases acc <;> simp [h, bbJoin]
    · simp [h]
  case text.text p =>
    simp only [boundsStep, hasExtent]
    cases h : dels.contains p.strokeId
    · cases acc <;> simp [h, bbJoin]
    · simp [h]
  all_goals simp [boundsStep, hasExtent]

/-- Folding `boundsStep` is `none` exactly when nothing contributed. -/
theorem foldl_boundsStep_none (dels : List String) :
    ∀ (l : List DrawEvent) (acc : Option BoundingBox),
      l.foldl (boundsStep dels) acc = none ↔
        acc = none ∧ ∀ e ∈ l, hasExtent dels e = false := by
  intro l
  induction l with
  | nil => intro acc; simp
  | cons e rest ih =>
      intro acc
      rw [List.foldl_cons, ih, boundsStep_none]
      constructor
      · rintro ⟨⟨h1, h2⟩, h3⟩
        refine ⟨h1, fun x hx => ?_⟩
        rcases List.mem_cons.mp hx with rfl | hx
        · exact h2
        · exact h3 x hx
      · rintro ⟨h1, h2⟩
        exact ⟨⟨h1, h2 e (List.mem_cons_self e rest)⟩,
          fun x hx => h2 x (List.mem_cons_of_mem e hx)⟩

/-- `calculateBounds` is `null` exactly when no event has renderable
extent. -/
theorem calculateBounds_none (events : List DrawEvent)
    (dels : List String) :
    calculateBounds events dels = none ↔
      ∀ e ∈ events, hasExtent dels e = false := by
  unfold calculateBounds
  rw [foldl_boundsStep_none]
  simp

/-- `List.contains` only depends on the membership set. -/
theorem contains_congr (d1 d2 : List String)
    (hmem : ∀ x, x ∈ d1 ↔ x ∈ d2) (s : String) :
    d1.contains s = d2.contains s := by
  by_cases h : s ∈ d1
  · have h2 : s ∈ d2 := (hmem s).mp h
    simp [List.elem_iff, h, h2]
  · have h2 : s ∉ d2 := fun hx => h ((hmem s).mpr hx)
    simp [List.elem_iff, h, h2]

/-- `boundsStep` only depends on the membership set of `deletedIds`. -/
theorem boundsStep_congr (d1 d2 : List String)
    (hmem : ∀ x, x ∈ d1 ↔ x ∈ d2) (acc : Option BoundingBox)
    (e : DrawEvent) :
    boundsStep d1 acc e = boundsStep d2 acc e := by
  obtain ⟨bid, sq, ty, uid, ts, pl⟩ := e
  cases ty <;> cases pl <;> simp only [boundsStep] <;>
    rw [contains_congr d1 d2 hmem]

/-- `calculateBounds` only depends on the membership set of
`deletedIds`. -/
theorem calculateBounds_congr (d1 d2 : List String)
    (hmem : ∀ x, x ∈ d1 ↔ x ∈ d2) (events : List DrawEvent) :
    calculateBounds events d1 = calculateBounds events d2 := by
  unfold calculateBounds
  exact List.foldl_ext _ _ none
    (fun acc e _ => boundsStep_congr d1 d2 hmem acc e)

/-- `isRendered` only depends on the membership set of `deletedIds`. -/
theorem isRendered_congr (d1 d2 : List String)
    (hmem : ∀ x, x ∈ d1 ↔ x ∈ d2) (e : DrawEvent) :
    isRendered d1 e = isRendered d2 e := by
  obtain ⟨bid, sq, ty, uid, ts, pl⟩ := e
  cases ty <;> cases pl <;> simp only [isRendered] <;>
    rw [contains_congr d1 d2 hmem]

/-- Membership after folding `Set.add` over a list of ids. -/
theorem mem_foldl_jsStrSetAdd (ids : List String) :
    ∀ (s : List String) (x : String),
      x ∈ ids.foldl jsStrSetAdd s ↔ x ∈ s ∨ x ∈ ids := by
  induction ids with
  | nil => intro s x; simp
  | cons a rest ih =>
      intro s x
      rw [List.foldl_cons]
      rw [ih]
      unfold jsStrSetAdd
      by_cases h : a ∈ s
      · rw [if_pos h]
        simp only [List.mem_cons]
        constructor
        · rintro (hx | hx)
          · exact Or.inl hx
          · exact Or.inr (Or.inr hx)
        · rintro (hx | rfl | hx)
          · exact Or.inl hx
          · exact Or.inl h
          · exact Or.inr hx
      · rw [if_neg h]
        simp only [List.mem_append, List.mem_singleton, List.mem_cons]
        tauto

/-- Every `pass1Step` advances the running index by one. -/
theorem pass1Step_counter (acc : List String × Option ℕ × ℕ)
    (e : DrawEvent) : (pass1Step acc e).2.2 = acc.2.2 + 1 := by
  obtain ⟨bid, sq, ty, uid, ts, pl⟩ := e
  cases ty <;> cases pl <;> rfl

/-- The running index after the first pass is the list length. -/
theorem foldl_pass1Step_counter :
    ∀ (l : List DrawEvent) (acc : List String × Option ℕ × ℕ),
      (l.foldl pass1Step acc).2.2 = acc.2.2 + l.length := by
  intro l
  induction l with
  | nil => intro acc; simp
  | cons e rest ih =>
      intro acc
      rw [List.foldl_cons, ih, pass1Step_counter]
      simp only [List.length_cons]
      omega

/-- A non-`clear` step keeps the last-clear index. -/
theorem pass1Step_noClear_lastIdx (acc : List String × Option ℕ × ℕ)
    (e : DrawEvent) (he : e.type ≠ DrawEventType.clear) :
    (pass1Step acc e).2.1 = acc.2.1 := by
  obtain ⟨bid, sq, ty, uid, ts, pl⟩ := e
  cases ty <;> cases pl <;> first | rfl | exact absurd rfl he

/-- A non-`clear` step adds exactly its delete ids to the set. -/
theorem pass1Step_noClear_mem (acc : List String × Option ℕ × ℕ)
    (e : DrawEvent) (he : e.type ≠ DrawEventType.clear) (x : String) :
    x ∈ (pass1Step acc e).1 ↔ x ∈ acc.1 ∨ x ∈ deleteIdsOf [e] := by
  obtain ⟨bid, sq, ty, uid, ts, pl⟩ := e
  cases ty <;> cases pl <;>
    first
      | exact absurd rfl he
      | simp [pass1Step, deleteIdsOf, mem_foldl_jsStrSetAdd]

/-- Over a clear-free list the first pass keeps the last-clear index
and collects exactly the delete ids. -/
theorem foldl_pass1Step_noClear :
    ∀ (l : List DrawEvent) (acc : List String × Option ℕ × ℕ),
      (∀ e ∈ l, e.type ≠ DrawEventType.clear) →
      (l.foldl pass1Step acc).2.1 = acc.2.1 ∧
      (∀ x, x ∈ (l.foldl pass1Step acc).1 ↔
        x ∈ acc.1 ∨ x ∈ deleteIdsOf l) := by
  intro l
  induction l with
  | nil => intro acc _; exact ⟨rfl, fun x => by simp [deleteIdsOf]⟩
  | cons e rest ih =>
      intro acc h
      have he := h e (List.mem_cons_self e rest)
      have hrest : ∀ x ∈ rest, x.type ≠ DrawEventType.clear :=
        fun x hx => h x (List.mem_cons_of_mem e hx)
      obtain ⟨ih1, ih2⟩ := ih (pass1Step acc e) hrest
      rw [List.foldl_cons]
      refine ⟨ih1.trans (pass1Step_noClear_lastIdx acc e he),
        fun x => ?_⟩
      rw [ih2 x, pass1Step_noClear_mem acc e he x]
      simp only [deleteIdsOf, List.mem_append, List.not_mem_nil,
        or_false]
      tauto

/-- A `clear` step resets the set and records the index. -/
theorem pass1Step_clear (acc : List String × Option ℕ × ℕ)
    (c : DrawEvent) (hc : c.type = DrawEventType.clear) :
    pass1Step acc c = ([], some acc.2.2, acc.2.2 + 1) := by
  obtain ⟨bid, sq, ty, uid, ts, pl⟩ := c
  cases ty <;> cases pl <;> first | rfl | simp at hc

/-- First-pass characterization for clear-free event lists. -/
theorem snapshotPass1_noClear (events : List DrawEvent)
    (h : ∀ e ∈ events, e.type ≠ DrawEventType.clear) :
    (snapshotPass1 events).2 = none ∧
    ∀ x, x ∈ (snapshotPass1 events).1 ↔ x ∈ deleteIdsOf events := by
  obtain ⟨h1, h2⟩ := foldl_pass1Step_noClear events ([], none, 0) h
  refine ⟨h1.trans rfl, fun x => ?_⟩
  have hx := h2 x
  simp only [List.not_mem_nil, false_or] at hx
  exact hx

/-- First-pass characterization when a last `clear` exists. -/
theorem snapshotPass1_lastClear (l₁ : List DrawEvent) (c : DrawEvent)
    (l₂ : List DrawEvent) (hc : c.type = DrawEventType.clear)
    (hl₂ : ∀ e ∈ l₂, e.type ≠ DrawEventType.clear) :
    (snapshotPass1 (l₁ ++ c :: l₂)).2 = some l₁.length ∧
    ∀ x, x ∈ (snapshotPass1 (l₁ ++ c :: l₂)).1 ↔ x ∈ deleteIdsOf l₂ := by
  have hsplit : l₁ ++ c :: l₂ = (l₁ ++ [c]) ++ l₂ := by simp
  have hmid : ((l₁ ++ [c]).foldl pass1Step ([], none, 0)) =
      ([], some l₁.length, l₁.length + 1) := by
    rw [List.foldl_append, List.foldl_cons, List.foldl_nil,
      pass1Step_clear _ c hc, foldl_pass1Step_counter]
    simp
  obtain ⟨h1, h2⟩ := foldl_pass1Step_noClear l₂
    ([], some l₁.length, l₁.length + 1) hl₂
  constructor
  · show ((l₁ ++ c :: l₂).foldl pass1Step ([], none, 0)).2.1 =
      some l₁.length
    rw [hsplit, List.foldl_append, hmid]
    exact h1.trans rfl
  · intro x
    show x ∈ ((l₁ ++ c :: l₂).foldl pass1Step ([], none, 0)).1 ↔ _
    rw [hsplit, List.foldl_append, hmid]
    have hx := h2 x
    simp only [List.not_mem_nil, false_or] at hx
    exact hx

/-- Any event list is clear-free or splits around its last `clear`. -/
theorem clear_decomposition (events : List DrawEvent) :
    (∀ e ∈ events, e.type ≠ DrawEventType.clear) ∨
    ∃ l₁ c l₂, events = l₁ ++ c :: l₂ ∧
      c.type = DrawEventType.clear ∧
      ∀ e ∈ l₂, e.type ≠ DrawEventType.clear := by
  induction events with
  | nil => exact Or.inl (by simp)
  | cons e rest ih =>
      rcases ih with h | ⟨l₁, c, l₂, heq, hc, hl₂⟩
      · by_cases he : e.type = DrawEventType.clear
        · exact Or.inr ⟨[], e, rest, rfl, he, h⟩
        · refine Or.inl (fun x hx => ?_)
          rcases List.mem_cons.mp hx with rfl | hx
          · exact he
          · exact h x hx
      · exact Or.inr ⟨e :: l₁, c, l₂, by rw [heq]; rfl, hc, hl₂⟩

/-- A clear-free list has no `clear` to find. -/
theorem findClear_none (l : List DrawEvent)
    (h : ∀ e ∈ l, e.type ≠ DrawEventType.clear) :
    l.findIdx? (fun e => e.type == DrawEventType.clear) = none := by
  rw [List.findIdx?_eq_none_iff]
  intro x hx
  simp only [beq_eq_false_iff_ne]
  exact h x hx

/-- `survivorsSpec` of a clear-free list is the list itself. -/
theorem survivorsSpec_noClear (events : List DrawEvent)
    (h : ∀ e ∈ events, e.type ≠ DrawEventType.clear) :
    survivorsSpec events = events := by
  unfold survivorsSpec
  rw [findClear_none events.reverse
    (fun e he => h e (List.mem_reverse.mp he))]

/-- `survivorsSpec` around the last `clear` is the clear-free tail. -/
theorem survivorsSpec_lastClear (l₁ : List DrawEvent) (c : DrawEvent)
    (l₂ : List DrawEvent) (hc : c.type = DrawEventType.clear)
    (hl₂ : ∀ e ∈ l₂, e.type ≠ DrawEventType.clear) :
    survivorsSpec (l₁ ++ c :: l₂) = l₂ := by
  have hfind : (l₁ ++ c :: l₂).reverse.findIdx?
      (fun e => e.type == DrawEventType.clear) = some l₂.length := by
    have hrev : (l₁ ++ c :: l₂).reverse =
        (l₂.reverse ++ [c]) ++ l₁.reverse := by simp
    have h2 : l₂.reverse.findIdx?
        (fun e => e.type == DrawEventType.clear) = none :=
      findClear_none l₂.reverse
        (fun e he => hl₂ e (List.mem_reverse.mp he))
    rw [hrev, List.findIdx?_append, List.findIdx?_append, h2]
    simp [List.findIdx?_cons, hc]
  unfold survivorsSpec
  rw [hfind]
  have hlen : (l₁ ++ c :: l₂).length - l₂.length = l₁.length + 1 := by
    simp only [List.length_append, List.length_cons]
    omega
  show (l₁ ++ c :: l₂).drop ((l₁ ++ c :: l₂).length - l₂.length) = l₂
  rw [hlen, show l₁ ++ c :: l₂ = (l₁ ++ [c]) ++ l₂ from by simp,
    show l₁.length + 1 = (l₁ ++ [c]).length from by simp]
  exact List.drop_left _ _

/-- The renderer's surviving slice is `survivorsSpec`, and the deleted
ids it collects are, membership-wise, exactly the ids of the surviving
`delete` events. -/
theorem renderer_survivors (events : List DrawEvent) :
    (match (snapshotPass1 events).2 with
     | some i => events.drop (i + 1)
     | none => events) = survivorsSpec events ∧
    (∀ x, x ∈ (snapshotPass1 events).1 ↔
      x ∈ deleteIdsOf (survivorsSpec events)) := by
  rcases clear_decomposition events with h | ⟨l₁, c, l₂, rfl, hc, hl₂⟩
  · obtain ⟨h1, h2⟩ := snapshotPass1_noClear events h
    constructor
    · rw [h1, survivorsSpec_noClear events h]
    · rw [survivorsSpec_noClear events h]
      exact h2
  · obtain ⟨h1, h2⟩ := snapshotPass1_lastClear l₁ c l₂ hc hl₂
    constructor
    · rw [h1, survivorsSpec_lastClear l₁ c l₂ hc hl₂]
      show (l₁ ++ c :: l₂).drop (l₁.length + 1) = l₂
      rw [show l₁ ++ c :: l₂ = (l₁ ++ [c]) ++ l₂ from by simp,
        show l₁.length + 1 = (l₁ ++ [c]).length from by simp]
      exact List.drop_left _ _
    · rw [survivorsSpec_lastClear l₁ c l₂ hc hl₂]
      exact h2

/-- `renderEventsToSnapshot`, rephrased over `survivorsSpec` and
`deleteIdsOf`. -/
theorem renderEventsToSnapshot_eq (events : List DrawEvent) :
    renderEventsToSnapshot events =
      match calculateBounds (survivorsSpec events)
          (deleteIdsOf (survivorsSpec events)) with
      | none =>
          { width := 1, height := 1, offsetX := 0, offsetY := 0,
            rendered := [] }
      | some bounds =>
          { width := min MAX_CANVAS_SIZE
              (Int.ceil (bounds.maxX - bounds.minX + PADDING * 2)),
            height := min MAX_CANVAS_SIZE
              (Int.ceil (bounds.maxY - bounds.minY + PADDING * 2)),
            offsetX := bounds.minX - PADDING,
            offsetY := bounds.minY - PADDING,
            rendered := (survivorsSpec events).filter
              (isRendered (deleteIdsOf (survivorsSpec events))) } := by
  obtain ⟨hsurv, hdels⟩ := renderer_survivors events
  have hcb : calculateBounds (survivorsSpec events)
      (snapshotPass1 events).1 =
      calculateBounds (survivorsSpec events)
        (deleteIdsOf (survivorsSpec events)) :=
    calculateBounds_congr _ _ hdels _
  have hfil : (survivorsSpec events).filter
        (isRendered (snapshotPass1 events).1) =
      (survivorsSpec events).filter
        (isRendered (deleteIdsOf (survivorsSpec events))) :=
    List.filter_congr (fun e _ => isRendered_congr _ _ hdels e)
  simp only [renderEventsToSnapshot]
  rw [hsurv, hcb, hfil]

/-- C6: `renderEventsToSnapshot` discards every event at or before the
last `clear` (only `survivorsSpec events` matters); when no survivor
has renderable extent given the surviving deletes it returns the 1×1
image at world origin `(0, 0)`; otherwise the canvas is the bounding
box of the non-deleted survivors padded by 100 and clamped to 16384,
the returned origin is `(minX - 100, minY - 100)`, and the events
replayed are exactly the surviving stroke/shape/text events whose
`strokeId` is not referenced by a surviving `delete`; the contentless
case holds exactly when no survivor has renderable extent. -/
theorem renderEventsToSnapshot_spec (events : List DrawEvent) :
    ((∀ e ∈ survivorsSpec events,
        hasExtent (deleteIdsOf (survivorsSpec events)) e = false) →
      renderEventsToSnapshot events =
        { width := 1, height := 1, offsetX := 0, offsetY := 0,
          rendered := [] }) ∧
    (∀ bb, calculateBounds (survivorsSpec events)
        (deleteIdsOf (survivorsSpec events)) = some bb →
      renderEventsToSnapshot events =
        { width := min MAX_CANVAS_SIZE
            (Int.ceil (bb.maxX - bb.minX + PADDING * 2)),
          height := min MAX_CANVAS_SIZE
            (Int.ceil (bb.maxY - bb.minY + PADDING * 2)),
          offsetX := bb.minX - PADDING,
          offsetY := bb.minY - PADDING,
          rendered := (survivorsSpec events).filter
            (isRendered (deleteIdsOf (survivorsSpec events))) }) ∧
    (calculateBounds (survivorsSpec events)
        (deleteIdsOf (survivorsSpec events)) = none ↔
      ∀ e ∈ survivorsSpec events,
        hasExtent (deleteIdsOf (survivorsSpec events)) e = false) := by
  refine ⟨?_, ?_, calculateBounds_none _ _⟩
  · intro h
    have hnone : calculateBounds (survivorsSpec events)
        (deleteIdsOf (survivorsSpec events)) = none :=
      (calculateBounds_none _ _).mpr h
    rw [renderEventsToSnapshot_eq, hnone]
  · intro bb hbb
    rw [renderEventsToSnapshot_eq, hbb]

/-- C6 witness: a stroke followed by a `delete` of its id renders as
the 1×1 transparent image at `(0, 0)`. -/
theorem renderEventsToSnapshot_spec_witness :
    renderEventsToSnapshot [evW1, evW2] =
      { width := 1, height := 1, offsetX := 0, offsetY := 0,
        rendered := [] } :=
  (renderEventsToSnapshot_spec [evW1, evW2]).1 (by decide)

end Witeboard
